import Mathlib

/-!
# McTavish core — shallow embedding and verification

A shallow embedding of the claim-relevant parts of the McTavish runtime core
(`memoryGraphStore`, `premonitionMatcher`, `interactionBindingLogic`,
`collapseEngine`, `characterKernel`), translated from the TypeScript sources.

Modelling conventions used throughout:
* JavaScript `Map`s become insertion-ordered association lists with
  `Map.set` semantics (overwrite in place on an existing key, append on a
  fresh key);
* JavaScript numbers become `ℚ` (all weights and scores in the sources are
  exact decimal fractions, so rational arithmetic is exact);
* `uuidv4()` is modelled by drawing from a counter (ids are opaque to all
  of the embedded logic, which only ever compares them for equality);
* `Date.now()` is modelled by an explicit `now : Nat` argument on the
  operations that record timestamps (no embedded control flow reads them);
* a thrown exception becomes a `(state, some errorMessage)` result, where
  the returned state holds exactly the mutations performed before the
  `throw`; event emission becomes an explicit event log in each component
  state.
-/

namespace McTavish

/-! ## JavaScript `Map` as an insertion-ordered association list -/

/-- Insertion-ordered association list modelling a JavaScript `Map` (and
graphlib's internal edge-label map, which is keyed by node pairs). -/
abbrev JsMap (κ α : Type) := List (κ × α)

namespace JsMap

variable {κ : Type} [DecidableEq κ]

/-- `map.get(k)`: first binding for `k` (keys are kept duplicate-free). -/
def get? {α} (m : JsMap κ α) (k : κ) : Option α :=
  match m with
  | [] => none
  | kv :: rest => if kv.1 = k then some kv.2 else get? rest k

/-- `map.set(k, v)`: overwrite in place if `k` is present, else append. -/
def set {α} (m : JsMap κ α) (k : κ) (v : α) : JsMap κ α :=
  match m with
  | [] => [(k, v)]
  | kv :: rest => if kv.1 = k then (k, v) :: rest else kv :: set rest k v

/-- `map.delete(k)`: drop the binding for `k`, if any. -/
def del {α} (m : JsMap κ α) (k : κ) : JsMap κ α :=
  match m with
  | [] => []
  | kv :: rest => if kv.1 = k then rest else kv :: del rest k

/-- `map.has(k)`. -/
def has {α} (m : JsMap κ α) (k : κ) : Bool :=
  (get? m k).isSome

/-- `Array.from(map.values())`. -/
def values {α} (m : JsMap κ α) : List α := m.map Prod.snd

/-- The keys, in insertion order. -/
def keys {α} (m : JsMap κ α) : List κ := m.map Prod.fst

/-- The sum of a rational-valued map's values (the mass of a tone
distribution). -/
def sumVals (m : JsMap κ ℚ) : ℚ := (m.map Prod.snd).sum

end JsMap

/-! ## Open metadata bags

`metadata?: Record<string, any>` on nodes, edges, folds and fractures.  The
embedded logic stores strings, numbers, booleans and (in `addFold` /
`addPremonition`) structured values in it, and reads back only
`fractureEventId`; values are modelled by a small closed union. -/

structure EmotionalState where
  dominant : String
  secondary : Option String
  intensity : ℚ
  stability : ℚ
deriving DecidableEq, Repr

structure BindingCriteria where
  contentSimilarity : ℚ
  emotionalAlignment : ℚ
  keywords : Option (List String)
deriving DecidableEq, Repr

inductive MetaVal where
  | str (s : String)
  | num (q : ℚ)
  | bool (b : Bool)
  | emo (e : EmotionalState)
  | crit (c : BindingCriteria)
deriving DecidableEq, Repr

abbrev Metadata := List (String × MetaVal)

namespace Metadata

def lookup (m : Metadata) (k : String) : Option MetaVal :=
  match m.find? (fun kv => kv.1 = k) with
  | some kv => some kv.2
  | none => none

/-- JavaScript truthiness of `m?.[k]` (an absent key reads as `undefined`). -/
def truthy (m : Metadata) (k : String) : Bool :=
  match lookup m k with
  | none => false
  | some (.str s) => s ≠ ""
  | some (.num q) => q ≠ 0
  | some (.bool b) => b
  | some (.emo _) => true
  | some (.crit _) => true

end Metadata

/-! ## Core data types (`src/types.ts`) -/

structure FractureEvent where
  id : String
  content : String
  timestamp : Nat
  source : String
  metadata : Metadata
deriving DecidableEq, Repr

structure RecursionFold where
  id : String
  content : String
  timestamp : Nat
  characterId : String
  fractureEventId : Option String
  emotionalState : EmotionalState
  metadata : Metadata
deriving DecidableEq, Repr

structure Premonition extends RecursionFold where
  validityWindow : Nat
  bindingCriteria : BindingCriteria
deriving DecidableEq, Repr

structure MemoryNode where
  id : String
  type : String
  content : String
  timestamp : Nat
  metadata : Metadata
deriving DecidableEq, Repr

structure MemoryEdge where
  source : String
  target : String
  type : String
  weight : ℚ
  metadata : Metadata
deriving DecidableEq, Repr

structure McTavishConfig where
  defaultCollapseThreshold : ℚ
  premonitionValidityWindow : Nat
  mutationRate : ℚ
  emotionalMemoryWeight : ℚ
  contradictionTolerance : ℚ
deriving DecidableEq, Repr

/-! ## Lexical similarity

`calculateContentSimilarity` appears verbatim in both
`premonitionMatcher.ts` and `interactionBindingLogic.ts`;
`calculateKeywordMatch` appears in `premonitionMatcher.ts`.  The string
primitives (`toLowerCase`, `trim`, `split(/\s+/)`, `includes`) are
implemented structurally over the character list (`String.data`); ASCII
lower-casing and the ASCII whitespace class coincide with the JavaScript
behaviour on the contents that occur in this development. -/

/-- ASCII `toLowerCase` of one character. -/
def lowerChar (c : Char) : Char :=
  if 'A' ≤ c ∧ c ≤ 'Z' then Char.ofNat (c.toNat + 32) else c

/-- `toLowerCase` over a character list. -/
def lowerList (l : List Char) : List Char := l.map lowerChar

/-- The (ASCII) whitespace class of JavaScript `\s` and `trim`. -/
def isWsChar (c : Char) : Bool :=
  c = ' ' ∨ c = '\t' ∨ c = '\n' ∨ c = '\r'

/-- `trim`: strip whitespace from both ends. -/
def trimList (l : List Char) : List Char :=
  ((l.dropWhile isWsChar).reverse.dropWhile isWsChar).reverse

/-- Maximal non-blank runs of a character list (the accumulator carries
the current run, reversed). -/
def splitWsAux : List Char → List Char → List (List Char)
  | [], acc => if acc.isEmpty then [] else [acc.reverse]
  | c :: rest, acc =>
    if isWsChar c then
      if acc.isEmpty then splitWsAux rest []
      else acc.reverse :: splitWsAux rest []
    else splitWsAux rest (c :: acc)

/-- `text.split(/\s+/)` on an already-trimmed character list: the empty
string yields `[""]` (as in JavaScript), any other trimmed string yields
its maximal non-blank runs. -/
def jsSplitWhitespace (l : List Char) : List (List Char) :=
  if l.isEmpty then [[]] else splitWsAux l []

/-- `new Set(words)` insertion order: first occurrences, in order. -/
def setDedup (l : List (List Char)) : List (List Char) :=
  l.foldl (fun acc w => if w ∈ acc then acc else acc ++ [w]) []

/-- Is `p` a prefix of the second list? -/
def isPrefixChars : List Char → List Char → Bool
  | [], _ => true
  | _ :: _, [] => false
  | a :: p, b :: l => a = b && isPrefixChars p l

/-- `text.includes(sub)` over character lists. -/
def containsChars : List Char → List Char → Bool
  | [], sub => isPrefixChars sub []
  | c :: rest, sub => isPrefixChars sub (c :: rest) || containsChars rest sub

/-- The discrete core of `calculateContentSimilarity`: the intersection
count and the union size of the two lower-cased, trimmed, tokenised word
sets. -/
def simCounts (text1 text2 : String) : Nat × Nat :=
  let wordSet1 := setDedup (jsSplitWhitespace (trimList (lowerList text1.data)))
  let wordSet2 := setDedup (jsSplitWhitespace (trimList (lowerList text2.data)))
  let matchCount := (wordSet1.filter (fun w => w ∈ wordSet2)).length
  (matchCount, wordSet1.length + wordSet2.length - matchCount)

/-- Jaccard index over lower-cased whitespace-tokenised word sets
(`calculateContentSimilarity`). -/
def calculateContentSimilarity (text1 text2 : String) : ℚ :=
  let counts := simCounts text1 text2
  if 0 < counts.2 then (counts.1 : ℚ) / (counts.2 : ℚ) else 0

/-- The discrete core of `calculateKeywordMatch`: how many keywords occur
in the lower-cased text. -/
def keywordMatchCount (keywords : List String) (text : String) : Nat :=
  (keywords.filter
      (fun k => containsChars (lowerList text.data) (lowerList k.data))).length

/-- Fraction of keywords occurring in the lower-cased text
(`calculateKeywordMatch`). -/
def calculateKeywordMatch (keywords : List String) (text : String) : ℚ :=
  if 0 < keywords.length then
    (keywordMatchCount keywords text : ℚ) / (keywords.length : ℚ)
  else 0

/-! ## Memory Graph Store (`src/memory/memoryGraphStore.ts`)

The store wraps a `graphlib.Graph({directed: true})` — a directed
**non-multigraph**, whose `setEdge(v, w, label)` keeps a single label per
`(v, w)` pair (a later call overwrites an earlier one regardless of the
label's `type` field) and whose `edge(v, w)` returns that label — next to
the store's own `nodes` map (keyed by node id) and `edges` map (keyed by
the string `` `${source}-${target}-${type}` ``). -/

structure MemoryGraphStore where
  /-- graphlib node set (ids); `setNode` inserts or re-labels. -/
  graphNodes : List String
  /-- graphlib edge labels, exactly one per `(source, target)` pair. -/
  graphEdges : JsMap (String × String) MemoryEdge
  nodes : JsMap String MemoryNode
  edges : JsMap String MemoryEdge
deriving DecidableEq, Repr

namespace MemoryGraphStore

def empty : MemoryGraphStore :=
  { graphNodes := [], graphEdges := [], nodes := [], edges := [] }

/-- `graph.hasNode(id)`. -/
def hasNode (g : MemoryGraphStore) (id : String) : Bool :=
  id ∈ g.graphNodes

/-- private `addNode`: `nodes.set` plus `graph.setNode`. -/
def addNode (g : MemoryGraphStore) (node : MemoryNode) : MemoryGraphStore :=
  { g with
    nodes := g.nodes.set node.id node
    graphNodes :=
      if node.id ∈ g.graphNodes then g.graphNodes else g.graphNodes ++ [node.id] }

/-- The string key `` `${source}-${target}-${type}` ``. -/
def edgeKey (e : MemoryEdge) : String :=
  e.source ++ "-" ++ e.target ++ "-" ++ e.type

/-- `addEdge`: throws when either endpoint is missing from the graph;
otherwise records the edge in the `edges` map and in graphlib (one label
per node pair).  The error case carries the source's message. -/
def addEdge (e : MemoryEdge) (g : MemoryGraphStore) :
    MemoryGraphStore × Option String :=
  let _edgeId := edgeKey e
  if ¬ (hasNode g e.source ∧ hasNode g e.target) then
    (g, some "Cannot create edge: one or both nodes do not exist")
  else
    ({ g with
       edges := g.edges.set (edgeKey e) e
       graphEdges := g.graphEdges.set (e.source, e.target) e }, none)

/-- `createDivergence` (default weight 0.5). -/
def createDivergence (sourceId targetId : String) (weight : ℚ)
    (g : MemoryGraphStore) : MemoryGraphStore × Option String :=
  addEdge
    { source := sourceId, target := targetId, type := "divergence"
      weight := weight, metadata := [] } g

/-- `createContradiction` (default weight 0.8). -/
def createContradiction (sourceId targetId : String) (weight : ℚ)
    (g : MemoryGraphStore) : MemoryGraphStore × Option String :=
  addEdge
    { source := sourceId, target := targetId, type := "contradiction"
      weight := weight, metadata := [] } g

/-- `createEmotionalLink` (default weight 0.6). -/
def createEmotionalLink (sourceId targetId : String) (weight : ℚ)
    (g : MemoryGraphStore) : MemoryGraphStore × Option String :=
  addEdge
    { source := sourceId, target := targetId, type := "emotional"
      weight := weight, metadata := [] } g

/-- Merge of JavaScript spreads `{a, b, ...m}`: keys of `m` override the
earlier fields (our `Metadata.lookup` takes the first hit, so the
overriding entries come first). -/
def mergeMeta (base override : Metadata) : Metadata :=
  override ++ base

/-- `addFracture`. -/
def addFracture (f : FractureEvent) (g : MemoryGraphStore) : MemoryGraphStore :=
  addNode g
    { id := f.id, type := "fracture", content := f.content
      timestamp := f.timestamp, metadata := f.metadata }

/-- `addFold`: stores the fold node (metadata gains `characterId` and
`emotionalState`, overridden by the fold's own metadata) and, when the
fold already names a fracture, immediately adds the `causality` edge
fracture → fold (which throws when the fracture node is absent). -/
def addFold (fold : RecursionFold) (g : MemoryGraphStore) :
    MemoryGraphStore × Option String :=
  let node : MemoryNode :=
    { id := fold.id, type := "fold", content := fold.content
      timestamp := fold.timestamp
      metadata :=
        mergeMeta
          [("characterId", .str fold.characterId),
           ("emotionalState", .emo fold.emotionalState)]
          fold.metadata }
  let g := addNode g node
  match fold.fractureEventId with
  | some fractureId =>
    if fractureId ≠ "" then
      addEdge
        { source := fractureId, target := fold.id, type := "causality"
          weight := 1, metadata := [] } g
    else (g, none)
  | none => (g, none)

/-- `addPremonition`. -/
def addPremonitionNode (p : Premonition) (g : MemoryGraphStore) :
    MemoryGraphStore :=
  addNode g
    { id := p.id, type := "premonition", content := p.content
      timestamp := p.timestamp
      metadata :=
        mergeMeta
          [("characterId", .str p.characterId),
           ("emotionalState", .emo p.emotionalState),
           ("validityWindow", .num p.validityWindow),
           ("bindingCriteria", .crit p.bindingCriteria)]
          p.metadata }

/-- `addMemory` — the caller supplies the fresh uuid and the clock value. -/
def addMemory (freshId : String) (now : Nat) (content characterId : String)
    (metadata : Metadata) (g : MemoryGraphStore) : MemoryGraphStore :=
  addNode g
    { id := freshId, type := "memory", content := content, timestamp := now
      metadata := mergeMeta [("characterId", .str characterId)] metadata }

/-- `getNode`. -/
def getNode (g : MemoryGraphStore) (nodeId : String) : Option MemoryNode :=
  g.nodes.get? nodeId

/-- `getAllEdges`. -/
def getAllEdges (g : MemoryGraphStore) : List MemoryEdge :=
  g.edges.values

/-- `getNodesByType`. -/
def getNodesByType (g : MemoryGraphStore) (type : String) : List MemoryNode :=
  g.nodes.values.filter (fun node => node.type = type)

/-- `getEdgesBetween`: graphlib's single label for the pair, as a
zero-or-one element list. -/
def getEdgesBetween (g : MemoryGraphStore) (sourceId targetId : String) :
    List MemoryEdge :=
  match g.graphEdges.get? (sourceId, targetId) with
  | some e => [e]
  | none => []

end MemoryGraphStore

/-! ## Premonition Matcher (`src/premonition/premonitionMatcher.ts`) -/

/-- Internal per-premonition bookkeeping (`PremonitionState`). -/
structure PremonitionState where
  premonition : Premonition
  createdAtTurn : Nat
  expiresAtTurn : Nat
  bindingAttempts : Nat
  isBound : Bool
deriving DecidableEq, Repr

/-- Notifications the matcher `emit`s (`binding`, `premonitionExpired`). -/
inductive MatcherEvent where
  | binding (premonitionId fractureId : String) (matchScore : ℚ)
  | premonitionExpired (premonitionId : String)
deriving DecidableEq, Repr

structure PremonitionMatcher where
  memoryGraph : MemoryGraphStore
  activePremonitions : JsMap String PremonitionState
  turnCounter : Nat
  events : List MatcherEvent
deriving DecidableEq, Repr

namespace PremonitionMatcher

/-- `calculateBindingStrength`. -/
def calculateBindingStrength (criteria : BindingCriteria) : ℚ :=
  let strength : ℚ := 0
  let strength := strength + criteria.contentSimilarity * (2/5)
  let strength := strength + criteria.emotionalAlignment * (3/10)
  match criteria.keywords with
  | some ks =>
    if 0 < ks.length then strength + (3/10) * min 1 ((ks.length : ℚ) / 5)
    else strength
  | none => strength

/-- `calculateMatchScore`: Jaccard content term + fixed 0.5 emotional
placeholder term + keyword term. -/
def calculateMatchScore (premonition : Premonition) (fracture : FractureEvent) :
    ℚ :=
  let criteria := premonition.bindingCriteria
  let contentSimilarity :=
    calculateContentSimilarity premonition.content fracture.content
  let score := contentSimilarity * criteria.contentSimilarity
  let emotionalAlignment : ℚ := 1/2
  let score := score + emotionalAlignment * criteria.emotionalAlignment
  match criteria.keywords with
  | some ks =>
    if 0 < ks.length then
      score + calculateKeywordMatch ks fracture.content * (3/10)
    else score
  | none => score

/-- `getBindingThreshold`, as a function of the state and the current turn
counter.  (This model takes `remainingTurns / validityWindow` in `ℚ`,
where division by zero yields `0`; every claim about the threshold assumes
a positive validity window, where the model and the source agree.) -/
def getBindingThreshold (state : PremonitionState) (turnCounter : Nat) : ℚ :=
  let baseThreshold : ℚ := 7/10
  let attemptFactor := min (1/5) ((state.bindingAttempts : ℚ) * (1/20))
  let remainingTurns : ℚ := (state.expiresAtTurn : ℚ) - (turnCounter : ℚ)
  let expirationFactor :=
    min (1/5)
      ((1 - remainingTurns / (state.premonition.validityWindow : ℚ)) * (1/5))
  max (3/10) (baseThreshold - attemptFactor - expirationFactor)

/-- `addPremonition`: records the node in the graph and opens the pending
state at the current turn. -/
def addPremonition (premonition : Premonition) (m : PremonitionMatcher) :
    PremonitionMatcher :=
  { m with
    memoryGraph := m.memoryGraph.addPremonitionNode premonition
    activePremonitions :=
      m.activePremonitions.set premonition.id
        { premonition := premonition
          createdAtTurn := m.turnCounter
          expiresAtTurn := m.turnCounter + premonition.validityWindow
          bindingAttempts := 0
          isBound := false } }

/-- The edge and event produced by `bindPremonition` (the match score is
recomputed there exactly as in `processFracture`). -/
def bindPremonitionEdge (premonition : Premonition) (fracture : FractureEvent)
    (now : Nat) : MemoryEdge :=
  { source := premonition.id
    target := fracture.id
    type := "causality"
    weight := calculateMatchScore premonition fracture
    metadata :=
      [("bindingTimestamp", .num now), ("bindingType", .str "premonition")] }

/-- The matching loop of `processFracture`, running over the sorted
snapshot of the active premonitions.  Each iteration mutates only the map
entry whose key it carries; a throw out of `addEdge` aborts the loop,
leaving the mutations made so far (the snapshot keys are pairwise
distinct whenever the state was built by the public operations). -/
def processLoop (fracture : FractureEvent) (now : Nat) :
    List (String × PremonitionState) → PremonitionMatcher →
    PremonitionMatcher × Option String
  | [], m => (m, none)
  | (id, state) :: rest, m =>
    if state.isBound ∨ m.turnCounter > state.expiresAtTurn then
      processLoop fracture now rest m
    else
      let state1 := { state with bindingAttempts := state.bindingAttempts + 1 }
      let m1 :=
        { m with activePremonitions := m.activePremonitions.set id state1 }
      let matchScore := calculateMatchScore state1.premonition fracture
      if getBindingThreshold state1 m1.turnCounter ≤ matchScore then
        match
          MemoryGraphStore.addEdge
            (bindPremonitionEdge state1.premonition fracture now)
            m1.memoryGraph with
        | (g, some err) => ({ m1 with memoryGraph := g }, some err)
        | (g, none) =>
          let m2 :=
            { m1 with
              memoryGraph := g
              events :=
                m1.events ++
                  [MatcherEvent.binding state1.premonition.id fracture.id
                    (calculateMatchScore state1.premonition fracture)] }
          let state2 := { state1 with isBound := true }
          processLoop fracture now rest
            { m2 with
              activePremonitions := m2.activePremonitions.set id state2 }
      else processLoop fracture now rest m1

/-- `cleanupExpiredPremonitions`: drop every entry whose turn has passed,
emitting one expiry notification each, in map order. -/
def cleanupExpiredPremonitions (m : PremonitionMatcher) : PremonitionMatcher :=
  let expired :=
    m.activePremonitions.filter
      (fun kv => m.turnCounter > kv.2.expiresAtTurn)
  { m with
    activePremonitions :=
      m.activePremonitions.filter
        (fun kv => ¬ m.turnCounter > kv.2.expiresAtTurn)
    events :=
      m.events ++ expired.map (fun kv => .premonitionExpired kv.1) }

/-- `processFracture`: turn increment, strength-sorted matching pass
(JavaScript `sort` with comparator `bScore - aScore` is a stable
descending sort), then expiry cleanup (skipped when the pass threw). -/
def processFracture (fracture : FractureEvent) (now : Nat)
    (m : PremonitionMatcher) : PremonitionMatcher × Option String :=
  let m := { m with turnCounter := m.turnCounter + 1 }
  let premonitionStates :=
    m.activePremonitions.mergeSort
      (fun a b =>
        calculateBindingStrength b.2.premonition.bindingCriteria ≤
          calculateBindingStrength a.2.premonition.bindingCriteria)
  match processLoop fracture now premonitionStates m with
  | (m, some err) => (m, some err)
  | (m, none) => (cleanupExpiredPremonitions m, none)

/-- One pending-state entry is well-formed relative to a node set: it is
keyed by its premonition's id and that premonition's node is stored. -/
def EntryOk (gNodes : List String) (kv : String × PremonitionState) : Prop :=
  kv.1 = kv.2.premonition.id ∧ kv.2.premonition.id ∈ gNodes

/-- A matcher state is well-formed: the active map's keys are
duplicate-free, each entry is keyed by its premonition's id, and every
active premonition's node is in the graph.  `addPremonition` establishes
this (it stores the node first) and both public operations preserve
it. -/
def GoodState (m : PremonitionMatcher) : Prop :=
  m.activePremonitions.keys.Nodup ∧
  ∀ kv ∈ m.activePremonitions, EntryOk m.memoryGraph.graphNodes kv

/-- Is this a binding notification for the given echo id? -/
def isBindingFor (pid : String) : MatcherEvent → Bool
  | .binding q _ _ => q = pid
  | _ => false

/-- Is this an expiry notification for the given echo id? -/
def isExpiryFor (pid : String) : MatcherEvent → Bool
  | .premonitionExpired q => q = pid
  | _ => false

/-- How many binding notifications for this echo id have been emitted. -/
def bindCount (pid : String) (m : PremonitionMatcher) : Nat :=
  m.events.countP (isBindingFor pid)

/-- How many expiry notifications for this echo id have been emitted. -/
def expiryCount (pid : String) (m : PremonitionMatcher) : Nat :=
  m.events.countP (isExpiryFor pid)

/-- The matcher's evolution after an echo with id `pid` is registered:
further registrations (of other echoes) and stimulus processing, where —
as in the real pipeline, which stores each fracture before matching — a
processed stimulus's node is in the graph. -/
inductive StepFrom (pid : String) :
    PremonitionMatcher → PremonitionMatcher → Prop where
  | add (p : Premonition) (m : PremonitionMatcher) (h : p.id ≠ pid) :
      StepFrom pid m (addPremonition p m)
  | proc (f : FractureEvent) (now : Nat) (m : PremonitionMatcher)
      (h : m.memoryGraph.hasNode f.id = true) :
      StepFrom pid m (processFracture f now m).1

/-- `getActivePremonitions`. -/
def getActivePremonitions (m : PremonitionMatcher) : List Premonition :=
  ((m.activePremonitions.values.filter
      (fun state => ¬ state.isBound ∧ m.turnCounter ≤ state.expiresAtTurn)).map
    (fun state => state.premonition))

/-- `getBoundPremonitions`. -/
def getBoundPremonitions (m : PremonitionMatcher) : List Premonition :=
  ((m.activePremonitions.values.filter (fun state => state.isBound)).map
    (fun state => state.premonition))

end PremonitionMatcher

/-! ## Interaction Binding Logic (`src/interaction/interactionBindingLogic.ts`)

The claims touch `processFracture`, `processFold`, the deferred-binding
scan and `getResponsesForFracture`; those are embedded here (the
premonition-binding subscription, response selection and the fork/reverse
operations are not needed by any claim). -/

structure BindingState where
  fractureId : String
  boundFoldIds : List String
  selectedFoldId : Option String
  timestamp : Nat
  status : String
deriving DecidableEq, Repr

/-- The `interaction` notifications emitted by the embedded operations. -/
inductive InteractionEvent where
  | foldBinding (foldId fractureId : String)
  | deferredFold (foldId : String)
deriving DecidableEq, Repr

structure InteractionBindingLogic where
  memoryGraph : MemoryGraphStore
  pendingBindings : JsMap String BindingState
  selectedResponses : JsMap String String
  events : List InteractionEvent
deriving DecidableEq, Repr

namespace InteractionBindingLogic

/-- `bindFoldToFracture`: fetch-or-create the fracture's binding record,
append the fold id when it is new, emit a `fold_binding` interaction. -/
def bindFoldToFracture (foldId fractureId : String) (now : Nat)
    (s : InteractionBindingLogic) : InteractionBindingLogic :=
  let bindingState :=
    match s.pendingBindings.get? fractureId with
    | some b => b
    | none =>
      { fractureId := fractureId, boundFoldIds := [], selectedFoldId := none
        timestamp := now, status := "pending" }
  let bindingState :=
    if foldId ∈ bindingState.boundFoldIds then bindingState
    else { bindingState with boundFoldIds := bindingState.boundFoldIds ++ [foldId] }
  { s with
    pendingBindings := s.pendingBindings.set fractureId bindingState
    events := s.events ++ [.foldBinding foldId fractureId] }

/-- The body of `checkDeferredBindings`' loop over the deferred folds;
an `addEdge` throw aborts the remainder of the scan. -/
def deferredLoop (fracture : FractureEvent) (now : Nat) :
    List MemoryNode → InteractionBindingLogic →
    InteractionBindingLogic × Option String
  | [], s => (s, none)
  | foldNode :: rest, s =>
    let contentSimilarity :=
      calculateContentSimilarity foldNode.content fracture.content
    if 1/2 < contentSimilarity then
      match
        MemoryGraphStore.addEdge
          { source := foldNode.id, target := fracture.id, type := "causality"
            weight := contentSimilarity
            metadata :=
              [("bindingType", .str "deferred"),
               ("bindingTimestamp", .num now),
               ("fractureEventId", .str fracture.id)] }
          s.memoryGraph with
      | (g, some err) => ({ s with memoryGraph := g }, some err)
      | (g, none) =>
        deferredLoop fracture now rest
          (bindFoldToFracture foldNode.id fracture.id now
            { s with memoryGraph := g })
    else deferredLoop fracture now rest s

/-- `checkDeferredBindings`: scan every stored `fold` node whose metadata
lacks a (truthy) `fractureEventId` and deferred-bind the sufficiently
similar ones. -/
def checkDeferredBindings (fracture : FractureEvent) (now : Nat)
    (s : InteractionBindingLogic) : InteractionBindingLogic × Option String :=
  let foldNodes := s.memoryGraph.getNodesByType "fold"
  let deferredFolds :=
    foldNodes.filter (fun node => ¬ node.metadata.truthy "fractureEventId")
  deferredLoop fracture now deferredFolds s

/-- `processFracture`: store the fracture node, run the deferred-binding
scan, then (re)set the fracture's binding record to a fresh empty one. -/
def processFracture (fracture : FractureEvent) (now : Nat)
    (s : InteractionBindingLogic) : InteractionBindingLogic × Option String :=
  let s := { s with memoryGraph := s.memoryGraph.addFracture fracture }
  match checkDeferredBindings fracture now s with
  | (s, some err) => (s, some err)
  | (s, none) =>
    ({ s with
       pendingBindings :=
         s.pendingBindings.set fracture.id
           { fractureId := fracture.id, boundFoldIds := []
             selectedFoldId := none, timestamp := now, status := "pending" } },
     none)

/-- `processFold`: store the fold node (possibly adding its `causality`
edge, whose failure propagates), then bind directly or mark deferred. -/
def processFold (fold : RecursionFold) (now : Nat)
    (s : InteractionBindingLogic) : InteractionBindingLogic × Option String :=
  match MemoryGraphStore.addFold fold s.memoryGraph with
  | (g, some err) => ({ s with memoryGraph := g }, some err)
  | (g, none) =>
    let s := { s with memoryGraph := g }
    match fold.fractureEventId with
    | some fractureId =>
      if fractureId ≠ "" then (bindFoldToFracture fold.id fractureId now s, none)
      else ({ s with events := s.events ++ [.deferredFold fold.id] }, none)
    | none => ({ s with events := s.events ++ [.deferredFold fold.id] }, none)

/-- `getResponsesForFracture`. -/
def getResponsesForFracture (s : InteractionBindingLogic)
    (fractureId : String) : List String :=
  match s.pendingBindings.get? fractureId with
  | some bindingState => bindingState.boundFoldIds
  | none => []

end InteractionBindingLogic

/-! ## Collapse Engine (`src/core/collapseEngine.ts`)

Only `bindPremonitionToFracture` and the state it reads are embedded: the
engine's `processFracture` evaluation (tension scoring, premonition
emission) is randomized in the source (spec §9 marks it a placeholder)
and no claim depends on it.  `uuidv4()` is drawn from the `nextUuid`
counter. -/

/-- Notifications the engine `emit`s. -/
inductive EngineEvent where
  | recursionFold (fold : RecursionFold)
  | premonition (p : Premonition)
deriving DecidableEq, Repr

structure CollapseEngine where
  activeFractures : JsMap String FractureEvent
  pendingFolds : JsMap String RecursionFold
  pendingPremonitions : JsMap String Premonition
  events : List EngineEvent
  nextUuid : Nat
deriving DecidableEq, Repr

/-- The model's uuid supply. -/
def mkUuid (n : Nat) : String := "uuid-" ++ toString n

namespace CollapseEngine

/-- `bindPremonitionToFracture`: with both ids known, convert the pending
premonition into a fold with a fresh id bound to the fracture, drop the
premonition, store and emit the fold, and return `true`; otherwise return
`false` and leave the state untouched. -/
def bindPremonitionToFracture (premonitionId fractureId : String)
    (e : CollapseEngine) : CollapseEngine × Bool :=
  match e.pendingPremonitions.get? premonitionId,
      e.activeFractures.get? fractureId with
  | some premonition, some _fracture =>
    let boundFold : RecursionFold :=
      { premonition.toRecursionFold with
        id := mkUuid e.nextUuid
        fractureEventId := some fractureId }
    ({ e with
       nextUuid := e.nextUuid + 1
       pendingPremonitions := e.pendingPremonitions.del premonitionId
       pendingFolds := e.pendingFolds.set boundFold.id boundFold
       events := e.events ++ [.recursionFold boundFold] }, true)
  | _, _ => (e, false)

/-- `getPendingFolds`. -/
def getPendingFolds (e : CollapseEngine) : List RecursionFold :=
  e.pendingFolds.values

/-- `getPendingPremonitions`. -/
def getPendingPremonitions (e : CollapseEngine) : List Premonition :=
  e.pendingPremonitions.values

end CollapseEngine

/-! ## Character Kernel (`src/character/characterKernel.ts`)

JavaScript objects are shared by reference: `forkCharacter`'s spread
`{...original}` copies the character's *fields*, so the forked character
holds the same `ToneProfile` object, which in turn holds the same
`variations` record; `applyMutation` / `reconfigureCharacter` copy the
tone object (`{...character.toneProfile}`) but write the `variations`
record in place.  To capture this the model gives tone objects and
variations records explicit heap cells: `CharacterField.toneProfile` and
`ToneObj.variationsRef` are references (`Nat`) into the kernel's heaps,
and a write through a shared reference is visible from every character
holding it — exactly the source's aliasing. -/

/-- `ToneProfile`, with the `variations` record held by reference. -/
structure ToneObj where
  baseline : String
  variationsRef : Nat
  adaptability : ℚ
deriving DecidableEq, Repr

structure MutationSchema where
  driftRate : ℚ
  driftDirections : JsMap String ℚ
  stabilityFactors : List String
deriving DecidableEq, Repr

/-- `CharacterField`, with `toneProfile` and `mutationSchema` held by
reference. -/
structure CharacterField where
  id : String
  name : String
  toneProfile : Nat
  mutationSchema : Nat
  memoryAnchor : String
  collapseThreshold : ℚ
deriving DecidableEq, Repr

/-- `Partial<ToneProfile>` override for `createCharacter`. -/
structure ToneProfileInit where
  baseline : Option String
  variations : Option (JsMap String ℚ)
  adaptability : Option ℚ
deriving DecidableEq, Repr

/-- `Partial<MutationSchema>` override for `createCharacter`. -/
structure MutationSchemaInit where
  driftRate : Option ℚ
  driftDirections : Option (JsMap String ℚ)
  stabilityFactors : Option (List String)
deriving DecidableEq, Repr

structure CharacterKernel where
  characters : JsMap String CharacterField
  emotionalStates : JsMap String EmotionalState
  memoryGraph : MemoryGraphStore
  config : McTavishConfig
  heapTones : JsMap Nat ToneObj
  heapVars : JsMap Nat (JsMap String ℚ)
  heapSchemas : JsMap Nat MutationSchema
  nextRef : Nat
  nextUuid : Nat
deriving DecidableEq, Repr

namespace CharacterKernel

/-- `getCharacter`. -/
def getCharacter (k : CharacterKernel) (characterId : String) :
    Option CharacterField :=
  k.characters.get? characterId

/-- `getEmotionalState`. -/
def getEmotionalState (k : CharacterKernel) (characterId : String) :
    Option EmotionalState :=
  k.emotionalStates.get? characterId

/-- The character's tone profile as observed through its references
(baseline, materialised variations record, adaptability). -/
def viewToneProfile (k : CharacterKernel) (characterId : String) :
    Option (String × JsMap String ℚ × ℚ) :=
  match getCharacter k characterId with
  | none => none
  | some c =>
    match k.heapTones.get? c.toneProfile with
    | none => none
    | some tone =>
      match k.heapVars.get? tone.variationsRef with
      | none => none
      | some vars => some (tone.baseline, vars, tone.adaptability)

/-- The character's tone distribution (`toneProfile.variations`) as
observed through its references. -/
def viewVariations (k : CharacterKernel) (characterId : String) :
    Option (JsMap String ℚ) :=
  match viewToneProfile k characterId with
  | some view => some view.2.1
  | none => none

/-- The character's mutation rules as observed through the reference. -/
def viewMutationSchema (k : CharacterKernel) (characterId : String) :
    Option MutationSchema :=
  match getCharacter k characterId with
  | none => none
  | some c => k.heapSchemas.get? c.mutationSchema

/-- `createCharacter`: merge the overrides into the defaults, store a
`memory` anchor node, allocate the profile and seed the emotional state.
Returns the new character's id. -/
def createCharacter (name : String) (toneProfile : ToneProfileInit)
    (mutationSchema : MutationSchemaInit) (collapseThreshold : Option ℚ)
    (now : Nat) (k : CharacterKernel) : CharacterKernel × String :=
  let defaultVariations : JsMap String ℚ :=
    [("joy", 1/5), ("sadness", 1/5), ("anger", 1/10), ("fear", 1/10),
     ("surprise", 1/5), ("disgust", 1/10)]
  let mergedBaseline := toneProfile.baseline.getD "neutral"
  let mergedVariations := toneProfile.variations.getD defaultVariations
  let mergedAdaptability := toneProfile.adaptability.getD (1/2)
  let mergedSchema : MutationSchema :=
    { driftRate := mutationSchema.driftRate.getD k.config.mutationRate
      driftDirections :=
        mutationSchema.driftDirections.getD
          [("openness", 1/5), ("conscientiousness", 1/5),
           ("extraversion", 1/5), ("agreeableness", 1/5),
           ("neuroticism", 1/5)]
      stabilityFactors :=
        mutationSchema.stabilityFactors.getD
          ["core_memory", "repeated_interaction"] }
  let memoryAnchorId := mkUuid k.nextUuid
  let g :=
    k.memoryGraph.addMemory memoryAnchorId now
      ("Character creation: " ++ name) "system"
      [("type", .str "character_anchor")]
  let characterId := mkUuid (k.nextUuid + 1)
  let varsRef := k.nextRef
  let toneRef := k.nextRef + 1
  let schemaRef := k.nextRef + 2
  let character : CharacterField :=
    { id := characterId, name := name, toneProfile := toneRef
      mutationSchema := schemaRef, memoryAnchor := memoryAnchorId
      collapseThreshold :=
        collapseThreshold.getD k.config.defaultCollapseThreshold }
  ({ k with
     memoryGraph := g
     heapVars := k.heapVars.set varsRef mergedVariations
     heapTones :=
       k.heapTones.set toneRef
         { baseline := mergedBaseline, variationsRef := varsRef
           adaptability := mergedAdaptability }
     heapSchemas := k.heapSchemas.set schemaRef mergedSchema
     nextRef := k.nextRef + 3
     nextUuid := k.nextUuid + 2
     emotionalStates :=
       k.emotionalStates.set characterId
         { dominant := mergedBaseline, secondary := none
           intensity := 1/2, stability := 7/10 }
     characters := k.characters.set characterId character }, characterId)

/-- The variations update at the heart of `applyMutation`: when the
reaction's dominant emotion is a key of the distribution, raise its
weight by the drift (capped at 1) and rescale every *other* emotion
proportionally so the rest sums to the remaining mass (skipped when the
others sum to nothing); `drift` stands for `driftRate × intensity`.  Each
other emotion is written exactly once, reading its own pre-loop value, so
the sequential in-place writes of the source coincide with this fold. -/
def driftVariations (vars : JsMap String ℚ) (dominant : String) (drift : ℚ) :
    JsMap String ℚ :=
  if (vars.get? dominant).isSome then
    let newDominantWeight := min 1 ((vars.get? dominant).getD 0 + drift)
    let varsD := vars.set dominant newDominantWeight
    let totalOtherWeight := 1 - newDominantWeight
    let otherEmotions := varsD.keys.filter (fun e => e ≠ dominant)
    let sumOtherWeights :=
      (otherEmotions.map (fun e => (varsD.get? e).getD 0)).sum
    if 0 < sumOtherWeights then
      otherEmotions.foldl
        (fun acc e =>
          acc.set e
            (((acc.get? e).getD 0) / sumOtherWeights * totalOtherWeight))
        varsD
    else varsD
  else vars

/-- `applyMutation`: update the emotional state (the source's
`stability ?? 0.5 + 0.1` parses as `stability ?? (0.5 + 0.1)`, so an
existing stability is only passed through `min 1`), drift the dominant
emotion's weight and renormalise the others in place through the shared
`variations` reference, possibly rebase the baseline, and re-derive the
collapse threshold from the configured default. -/
def applyMutation (characterId : String) (fold : RecursionFold)
    (k : CharacterKernel) : CharacterKernel :=
  match getCharacter k characterId with
  | none => k
  | some character =>
    match k.heapSchemas.get? character.mutationSchema,
        k.heapTones.get? character.toneProfile with
    | some schema, some tone =>
      match k.heapVars.get? tone.variationsRef with
      | some vars =>
        let driftRate := schema.driftRate
        let stabArg : ℚ :=
          min 1
            (((k.emotionalStates.get? characterId).map
                (fun s => s.stability)).getD (1/2 + 1/10))
        let emotionalStates :=
          match k.emotionalStates.get? characterId with
          | none => k.emotionalStates
          | some current =>
            k.emotionalStates.set characterId
              { current with
                dominant := fold.emotionalState.dominant
                intensity := fold.emotionalState.intensity
                stability := stabArg }
        let dominant := fold.emotionalState.dominant
        let vars1 :=
          driftVariations vars dominant
            (driftRate * fold.emotionalState.intensity)
        let baseline1 :=
          if 7/10 < fold.emotionalState.stability then dominant
          else tone.baseline
        let toneRef1 := k.nextRef
        let tone1 : ToneObj :=
          { baseline := baseline1, variationsRef := tone.variationsRef
            adaptability := tone.adaptability }
        let intensityFactor := fold.emotionalState.intensity * (1/5)
        let character1 :=
          { character with
            toneProfile := toneRef1
            collapseThreshold :=
              max (1/10)
                (min (9/10)
                  (k.config.defaultCollapseThreshold - intensityFactor)) }
        { k with
          emotionalStates := emotionalStates
          heapVars := k.heapVars.set tone.variationsRef vars1
          heapTones := k.heapTones.set toneRef1 tone1
          nextRef := k.nextRef + 1
          characters := k.characters.set characterId character1 }
      | none => k
    | _, _ => k

/-- `forkCharacter`: new anchor node, `emotional` 0.8 then `divergence`
0.5 edge from the old anchor to the new one, and a field-level copy of
the character — the tone-profile and mutation-schema references are
shared with the original.  The forked character's id is
`mkUuid (k.nextUuid + 1)`; a missing character or a failed edge insertion
surfaces as the error component. -/
def forkCharacter (characterId : String) (nameModifier : String) (now : Nat)
    (k : CharacterKernel) : CharacterKernel × Option String :=
  match getCharacter k characterId with
  | none => (k, some ("Character " ++ characterId ++ " not found"))
  | some original =>
    let newMemoryAnchorId := mkUuid k.nextUuid
    let forkedCharacterId := mkUuid (k.nextUuid + 1)
    let g :=
      k.memoryGraph.addMemory newMemoryAnchorId now
        ("Character fork: " ++ original.name ++ " -> " ++ original.name ++
          " (" ++ nameModifier ++ ")")
        "system"
        [("type", .str "character_fork"),
         ("originalCharacterId", .str characterId),
         ("originalMemoryAnchor", .str original.memoryAnchor)]
    let k := { k with memoryGraph := g, nextUuid := k.nextUuid + 2 }
    match
      MemoryGraphStore.createEmotionalLink original.memoryAnchor
        newMemoryAnchorId (4/5) k.memoryGraph with
    | (g, some err) => ({ k with memoryGraph := g }, some err)
    | (g, none) =>
      match
        MemoryGraphStore.createDivergence original.memoryAnchor
          newMemoryAnchorId (1/2) g with
      | (g, some err) => ({ k with memoryGraph := g }, some err)
      | (g, none) =>
        let forkedCharacter : CharacterField :=
          { original with
            id := forkedCharacterId
            name := original.name ++ " (" ++ nameModifier ++ ")"
            memoryAnchor := newMemoryAnchorId }
        let k :=
          { k with
            memoryGraph := g
            characters := k.characters.set forkedCharacterId forkedCharacter }
        match k.emotionalStates.get? characterId with
        | some originalEmotionalState =>
          ({ k with
             emotionalStates :=
               k.emotionalStates.set forkedCharacterId
                 originalEmotionalState }, none)
        | none => (k, none)

/-- The id `forkCharacter` gives the forked character. -/
def forkedCharacterId (k : CharacterKernel) : String := mkUuid (k.nextUuid + 1)

/-- `reconfigureCharacter`: replace the emotional state, rewrite the
(shared) `variations` record in place around the given dominant emotion,
rebase baseline and adaptability on a fresh tone object, and adjust the
collapse threshold. -/
def reconfigureCharacter (characterId : String)
    (emotionalState : EmotionalState) (collapseThresholdAdjustment : ℚ)
    (k : CharacterKernel) : CharacterKernel :=
  match getCharacter k characterId with
  | none => k
  | some character =>
    match k.heapTones.get? character.toneProfile with
    | none => k
    | some tone =>
      match k.heapVars.get? tone.variationsRef with
      | none => k
      | some vars =>
        let emotionalStates :=
          match k.emotionalStates.get? characterId with
          | none => k.emotionalStates
          | some current =>
            k.emotionalStates.set characterId
              { dominant := emotionalState.dominant
                secondary :=
                  match emotionalState.secondary with
                  | some s => some s
                  | none => current.secondary
                intensity := emotionalState.intensity
                stability := emotionalState.stability }
        let dominantWeight :=
          min (1/2) (3/10 + emotionalState.intensity * (1/5))
        let remainingWeight := 1 - dominantWeight
        let otherEmotions :=
          vars.keys.filter (fun e => e ≠ emotionalState.dominant)
        let vars1 :=
          otherEmotions.foldl
            (fun acc e =>
              acc.set e (remainingWeight / (otherEmotions.length : ℚ)))
            vars
        let vars2 := vars1.set emotionalState.dominant dominantWeight
        let toneRef1 := k.nextRef
        let tone1 : ToneObj :=
          { baseline := emotionalState.dominant
            variationsRef := tone.variationsRef
            adaptability := 1 - emotionalState.stability }
        let character1 :=
          { character with
            toneProfile := toneRef1
            collapseThreshold :=
              max (1/10)
                (min (9/10)
                  (character.collapseThreshold +
                    collapseThresholdAdjustment)) }
        { k with
          emotionalStates := emotionalStates
          heapVars := k.heapVars.set tone.variationsRef vars2
          heapTones := k.heapTones.set toneRef1 tone1
          nextRef := k.nextRef + 1
          characters := k.characters.set characterId character1 }

/-- A sequence of `applyMutation` calls on one actor. -/
def mutateAll (characterId : String) (folds : List RecursionFold)
    (k : CharacterKernel) : CharacterKernel :=
  folds.foldl (fun k fold => applyMutation characterId fold k) k

end CharacterKernel

/-! ## Concrete instances used by witnesses and counterexamples -/

/-- The default configuration from `McTavish`'s constructor (`index.ts`). -/
def defaultConfig : McTavishConfig :=
  { defaultCollapseThreshold := 7/10
    premonitionValidityWindow := 5
    mutationRate := 1/20
    emotionalMemoryWeight := 3/5
    contradictionTolerance := 3/10 }

def wNodeA : MemoryNode :=
  { id := "a", type := "memory", content := "alpha", timestamp := 0
    metadata := [] }

def wNodeB : MemoryNode :=
  { id := "b", type := "memory", content := "beta", timestamp := 1
    metadata := [] }

def wStore : MemoryGraphStore :=
  (MemoryGraphStore.empty.addNode wNodeA).addNode wNodeB

/-- The `emotional` 0.8 link `forkCharacter` inserts between the anchors. -/
def wEdgeEmotional : MemoryEdge :=
  { source := "a", target := "b", type := "emotional", weight := 4/5
    metadata := [] }

/-- The `divergence` 0.5 link `forkCharacter` inserts right afterwards. -/
def wEdgeDivergence : MemoryEdge :=
  { source := "a", target := "b", type := "divergence", weight := 1/2
    metadata := [] }

/-- An edge naming an endpoint that is not in `wStore`. -/
def wMissingEdge : MemoryEdge :=
  { source := "a", target := "zzz", type := "causality", weight := 1
    metadata := [] }

/-- A reaction with dominant emotion `joy` at full intensity. -/
def c3Fold : RecursionFold :=
  { id := "fold-3", content := "warm light", timestamp := 2
    characterId := "uuid-1", fractureEventId := none
    emotionalState :=
      { dominant := "joy", secondary := none, intensity := 1
        stability := 1/2 }
    metadata := [] }

/-- A kernel holding one actor (`elena`, anchored at node `a` of
`wStore`) whose tone distribution `joy 0.2 / sadness 0.8` sums to 1. -/
def c3Kernel : CharacterKernel :=
  { characters :=
      [("elena",
        { id := "elena", name := "Elena", toneProfile := 1
          mutationSchema := 2, memoryAnchor := "a"
          collapseThreshold := 7/10 })]
    emotionalStates :=
      [("elena",
        { dominant := "neutral", secondary := none, intensity := 1/2
          stability := 7/10 })]
    memoryGraph := wStore
    config := defaultConfig
    heapTones :=
      [(1, { baseline := "neutral", variationsRef := 0, adaptability := 1/2 })]
    heapVars := [(0, [("joy", 1/5), ("sadness", 4/5)])]
    heapSchemas :=
      [(2, { driftRate := 1/20, driftDirections := [("openness", 1/5)]
             stabilityFactors := [] })]
    nextRef := 3, nextUuid := 0 }

/-- Fork `elena`; the forked actor gets id `uuid-1`. -/
def c3Fork : CharacterKernel × Option String :=
  CharacterKernel.forkCharacter "elena" "variant" 1 c3Kernel

/-- Mutate the *forked* actor. -/
def c3Mut : CharacterKernel :=
  CharacterKernel.applyMutation "uuid-1" c3Fold c3Fork.1

/-- Mutate `elena` directly (for the stability claim). -/
def c4Mut : CharacterKernel :=
  CharacterKernel.applyMutation "elena" c3Fold c3Kernel

/-- A pending-echo state used to instantiate the threshold claim. -/
def wPremState : PremonitionState :=
  { premonition :=
      { id := "p", content := "something looms", timestamp := 0
        characterId := "c", fractureEventId := none
        emotionalState :=
          { dominant := "fear", secondary := none, intensity := 1/2
            stability := 1/2 }
        metadata := []
        validityWindow := 3
        bindingCriteria :=
          { contentSimilarity := 3/5, emotionalAlignment := 1/2
            keywords := none } }
    createdAtTurn := 0
    expiresAtTurn := 3
    bindingAttempts := 0
    isBound := false }

/-- Scenario A's echo: content "you're about to ask about her", binding
criteria weighting content similarity 0.6 and emotional alignment 0.5
with keywords `elena` and `her`, valid for 3 turns. -/
def scenarioAEcho : Premonition :=
  { id := "echo-A", content := "you're about to ask about her", timestamp := 0
    characterId := "assistant", fractureEventId := none
    emotionalState :=
      { dominant := "curiosity", secondary := none, intensity := 4/5
        stability := 2/5 }
    metadata := []
    validityWindow := 3
    bindingCriteria :=
      { contentSimilarity := 3/5, emotionalAlignment := 1/2
        keywords := some ["elena", "her"] } }

/-- Scenario A's stimulus. -/
def scenarioAFracture : FractureEvent :=
  { id := "fracture-A", content := "What happened to Elena?", timestamp := 7
    source := "user", metadata := [] }

/-- Scenario A: the echo is registered while the turn counter is 0 (the
stimulus node is already in the graph, as `introduceFracture` stores it
before any matching runs). -/
def scenarioABase : PremonitionMatcher :=
  { memoryGraph := MemoryGraphStore.addFracture scenarioAFracture
      MemoryGraphStore.empty
    activePremonitions := [], turnCounter := 0, events := [] }

def scenarioAMatcher : PremonitionMatcher :=
  PremonitionMatcher.addPremonition scenarioAEcho
    { memoryGraph := MemoryGraphStore.addFracture scenarioAFracture
        MemoryGraphStore.empty
      activePremonitions := [], turnCounter := 0, events := [] }

/-- The echo's pending state as evaluated inside `processFracture` at
turn 1, after the `bindingAttempts++`. -/
def scenarioASt1 : PremonitionState :=
  { premonition := scenarioAEcho, createdAtTurn := 0, expiresAtTurn := 3
    bindingAttempts := 1, isBound := false }

/-- Scenario A's `processFracture` call at turn 1. -/
def scenarioARun : PremonitionMatcher × Option String :=
  PremonitionMatcher.processFracture scenarioAFracture 7 scenarioAMatcher

/-- A reaction submitted with no stimulus id (Scenario D shape). -/
def c1Fold : RecursionFold :=
  { id := "fold-1", content := "the garden burned", timestamp := 0
    characterId := "char-1", fractureEventId := none
    emotionalState :=
      { dominant := "sadness", secondary := none, intensity := 1/2
        stability := 1/2 }
    metadata := [] }

/-- A later stimulus with full token overlap with `c1Fold`. -/
def c1Fracture : FractureEvent :=
  { id := "fracture-1", content := "the garden burned", timestamp := 1
    source := "user", metadata := [] }

def c1State0 : InteractionBindingLogic :=
  { memoryGraph := MemoryGraphStore.empty, pendingBindings := []
    selectedResponses := [], events := [] }

/-- The state after the deferred reaction is processed. -/
def c1State1 : InteractionBindingLogic :=
  (InteractionBindingLogic.processFold c1Fold 0 c1State0).1

/-- The stimulus arriving: `processFracture` runs the deferred-binding
scan and then overwrites the binding record. -/
def c1Run : InteractionBindingLogic × Option String :=
  InteractionBindingLogic.processFracture c1Fracture 1 c1State1

/-- The node `addFold` stores for `c1Fold`. -/
def c1FoldNode : MemoryNode :=
  { id := "fold-1", type := "fold", content := "the garden burned"
    timestamp := 0
    metadata :=
      [("characterId", .str "char-1"),
       ("emotionalState", .emo
         { dominant := "sadness", secondary := none, intensity := 1/2
           stability := 1/2 })] }

/-- The node `addFracture` stores for `c1Fracture`. -/
def c1FracNode : MemoryNode :=
  { id := "fracture-1", type := "fracture", content := "the garden burned"
    timestamp := 1, metadata := [] }

/-- The deferred-binding edge created by `c1Run`, weight written as the
computed similarity. -/
def c1EdgeSym : MemoryEdge :=
  { source := "fold-1", target := "fracture-1", type := "causality"
    weight := calculateContentSimilarity "the garden burned" "the garden burned"
    metadata :=
      [("bindingType", .str "deferred"), ("bindingTimestamp", .num 1),
       ("fractureEventId", .str "fracture-1")] }

/-- A collapse-engine state holding one pending premonition and one
active fracture. -/
def wEngine : CollapseEngine :=
  { activeFractures :=
      [("f1",
        { id := "f1", content := "What happened to Elena?", timestamp := 7
          source := "user", metadata := [] })]
    pendingFolds := []
    pendingPremonitions := [("p", wPremState.premonition)]
    events := []
    nextUuid := 0 }

/-! # Theorems

Helper lemmas first, then one theorem per claim (with witnesses and
counterexamples where required). -/

namespace JsMap

variable {κ : Type} [DecidableEq κ]

theorem get?_set_self {α} (m : JsMap κ α) (k : κ) (v : α) :
    get? (set m k v) k = some v := by
  induction m with
  | nil => simp [set, get?]
  | cons kv rest ih =>
    by_cases h : kv.1 = k
    · simp [set, h, get?]
    · simpa [set, h, get?] using ih

theorem get?_set_ne {α} (m : JsMap κ α) (k k' : κ) (v : α) (h : k ≠ k') :
    get? (set m k v) k' = get? m k' := by
  induction m with
  | nil =>
    have h' : ¬ k = k' := h
    simp [set, get?, h']
  | cons kv rest ih =>
    by_cases hk : kv.1 = k
    · subst hk
      have h' : ¬ kv.1 = k' := h
      simp [set, get?, h']
    · by_cases hk' : kv.1 = k'
      · have h' : ¬ k' = k := fun he => h he.symm
        simp [set, hk, get?, hk', h']
      · simpa [set, hk, get?, hk'] using ih

theorem keys_set {α} (m : JsMap κ α) (k : κ) (v : α) :
    (set m k v).keys = if k ∈ m.keys then m.keys else m.keys ++ [k] := by
  induction m with
  | nil => simp [set, keys]
  | cons kv rest ih =>
    by_cases h : kv.1 = k
    · simp [set, h, keys]
    · have hne : ¬ k = kv.1 := fun hk => h hk.symm
      by_cases hmem : k ∈ rest.map Prod.fst
      · simpa [set, h, keys, hne, hmem] using ih
      · simpa [set, h, keys, hne, hmem] using ih

theorem get?_eq_none_of_not_mem_keys {α} (m : JsMap κ α) (k : κ)
    (h : k ∉ m.keys) : get? m k = none := by
  induction m with
  | nil => simp [get?]
  | cons kv rest ih =>
    simp only [keys, List.map_cons, List.mem_cons] at h
    push_neg at h
    have h1 : ¬ kv.1 = k := fun hk => h.1 hk.symm
    simpa [get?, h1] using ih (by simpa [keys] using h.2)

theorem get?_mem_values {α} (m : JsMap κ α) (k : κ) (v : α)
    (h : get? m k = some v) : v ∈ m.values := by
  induction m with
  | nil => simp [get?] at h
  | cons kv rest ih =>
    by_cases hk : kv.1 = k
    · simp only [get?, hk, if_true, Option.some.injEq] at h
      simp [values, ← h]
    · simp only [get?, hk, if_false] at h
      have := ih h
      simp [values] at this ⊢
      exact Or.inr this

theorem mem_keys_of_get?_eq_some {α} (m : JsMap String α) (k : String)
    (v : α) (h : get? m k = some v) : k ∈ m.keys := by
  induction m with
  | nil => simp [get?] at h
  | cons kv rest ih =>
    by_cases hk : kv.1 = k
    · simp [keys, hk]
    · simp only [get?, hk, if_false] at h
      simp only [keys, List.map_cons, List.mem_cons]
      exact Or.inr (by simpa [keys] using ih h)

theorem mem_of_get?_eq_some {α} (m : JsMap String α) (k : String) (v : α)
    (h : get? m k = some v) : (k, v) ∈ m := by
  induction m with
  | nil => simp [get?] at h
  | cons kv rest ih =>
    by_cases hk : kv.1 = k
    · simp only [get?, hk, if_true, Option.some.injEq] at h
      have hkv : kv = (k, v) := by rw [← hk, ← h]
      rw [← hkv]
      exact List.mem_cons_self kv rest
    · simp only [get?, hk, if_false] at h
      exact List.mem_cons_of_mem _ (ih h)

theorem mem_set_elim {α} (m : JsMap String α) (k : String) (v : α)
    (kv : String × α) (h : kv ∈ m.set k v) : kv ∈ m ∨ kv = (k, v) := by
  induction m with
  | nil => simpa [set] using h
  | cons a rest ih =>
    by_cases ha : a.1 = k
    · simp only [set, ha, if_true] at h
      rcases List.mem_cons.mp h with h1 | h1
      · exact Or.inr h1
      · exact Or.inl (List.mem_cons_of_mem _ h1)
    · simp only [set, ha, if_false] at h
      rcases List.mem_cons.mp h with h1 | h1
      · exact Or.inl (h1 ▸ List.mem_cons_self a rest)
      · rcases ih h1 with h2 | h2
        · exact Or.inl (List.mem_cons_of_mem _ h2)
        · exact Or.inr h2

theorem get?_of_mem_nodup {α} (m : JsMap String α) (kv : String × α)
    (hnd : m.keys.Nodup) (h : kv ∈ m) : get? m kv.1 = some kv.2 := by
  induction m with
  | nil => simp at h
  | cons a rest ih =>
    simp only [keys, List.map_cons, List.nodup_cons] at hnd
    rcases List.mem_cons.mp h with h1 | h1
    · subst h1
      simp [get?]
    · have hne : ¬ a.1 = kv.1 := by
        intro he
        exact hnd.1 (he ▸ List.mem_map.mpr ⟨kv, h1, rfl⟩)
      simp only [get?, hne, if_false]
      exact ih (by simpa [keys] using hnd.2) h1

theorem sumVals_set (m : JsMap String ℚ) (k : String) (v : ℚ) :
    sumVals (m.set k v) = sumVals m + v - (m.get? k).getD 0 := by
  induction m with
  | nil => simp [sumVals, set, get?]
  | cons kv rest ih =>
    by_cases h : kv.1 = k
    · subst h
      simp [sumVals, set, get?]
      ring
    · simp only [set, h, if_false, sumVals, List.map_cons, List.sum_cons,
        get?] at ih ⊢
      rw [ih]
      ring

theorem keys_map_getD (m : JsMap String ℚ) (h : m.keys.Nodup) :
    m.keys.map (fun k => (m.get? k).getD 0) = m.map Prod.snd := by
  induction m with
  | nil => rfl
  | cons kv rest ih =>
    simp only [keys, List.map_cons, List.nodup_cons] at h ⊢
    congr 1
    · simp [get?]
    · have hcongr :
          ∀ k ∈ rest.map Prod.fst,
            (get? (kv :: rest) k).getD 0 = (get? rest k).getD 0 := by
        intro k hkmem
        have hne : ¬ kv.1 = k := fun he => h.1 (he ▸ hkmem)
        simp [get?, hne]
      rw [List.map_congr_left hcongr]
      exact ih h.2

theorem foldl_set_get?_not_mem (g : JsMap String ℚ → String → ℚ)
    (es : List String) (m : JsMap String ℚ) (k : String) (hk : k ∉ es) :
    get? (es.foldl (fun acc e => acc.set e (g acc e)) m) k = get? m k := by
  induction es generalizing m with
  | nil => rfl
  | cons e rest ih =>
    simp only [List.mem_cons, not_or] at hk
    rw [List.foldl_cons, ih _ hk.2,
      get?_set_ne _ _ _ _ (fun he => hk.1 he.symm)]

theorem foldl_scale_get?_mem (S T : ℚ) (es : List String)
    (m : JsMap String ℚ) (k : String) (hnd : es.Nodup) (hk : k ∈ es) :
    get?
        (es.foldl
          (fun acc e => acc.set e (((acc.get? e).getD 0) / S * T)) m) k =
      some (((m.get? k).getD 0) / S * T) := by
  induction es generalizing m with
  | nil => cases hk
  | cons e rest ih =>
    obtain ⟨hne, hndr⟩ := List.nodup_cons.mp hnd
    rw [List.foldl_cons]
    rcases List.mem_cons.mp hk with h1 | h1
    · subst h1
      rw [foldl_set_get?_not_mem _ rest _ k hne, get?_set_self]
    · have hek : e ≠ k := fun he => hne (he ▸ h1)
      rw [ih _ hndr h1, get?_set_ne _ _ _ _ hek]

theorem foldl_set_keys (g : JsMap String ℚ → String → ℚ) (es : List String)
    (m : JsMap String ℚ) (hes : ∀ e ∈ es, e ∈ m.keys) :
    (es.foldl (fun acc e => acc.set e (g acc e)) m).keys = m.keys := by
  induction es generalizing m with
  | nil => rfl
  | cons e rest ih =>
    have hkeys1 : (m.set e (g m e)).keys = m.keys := by
      rw [keys_set, if_pos (hes e (List.mem_cons_self e rest))]
    rw [List.foldl_cons,
      ih _ (fun e' he' => by
        rw [hkeys1]
        exact hes e' (List.mem_cons_of_mem _ he')),
      hkeys1]

theorem mem_keys_isSome {α} (m : JsMap κ α) (k : κ) (h : k ∈ keys m) :
    (get? m k).isSome = true := by
  induction m with
  | nil => simp [keys] at h
  | cons kv rest ih =>
    simp only [keys, List.map_cons, List.mem_cons] at h
    by_cases hk : kv.1 = k
    · simp [get?, hk]
    · rcases h with h | h
      · exact absurd h.symm hk
      · simp only [get?, if_neg hk]
        exact ih h

theorem get?_filter_of_none {α} (m : JsMap κ α) (f : κ × α → Bool) (k : κ)
    (h : get? m k = none) : get? (m.filter f) k = none := by
  induction m with
  | nil => rfl
  | cons kv rest ih =>
    simp only [get?] at h
    by_cases hk : kv.1 = k
    · rw [if_pos hk] at h
      exact Option.noConfusion h
    · rw [if_neg hk] at h
      rw [List.filter_cons]
      by_cases hf : f kv = true
      · rw [if_pos hf]
        simp only [get?, if_neg hk]
        exact ih h
      · rw [if_neg hf]
        exact ih h

theorem get?_filter_of_some {α} (m : JsMap κ α) (f : κ × α → Bool) (k : κ)
    (v : α) (hnd : (keys m).Nodup) (h : get? m k = some v) :
    get? (m.filter f) k = if f (k, v) = true then some v else none := by
  induction m with
  | nil => exact Option.noConfusion h
  | cons kv rest ih =>
    obtain ⟨k1, v1⟩ := kv
    have hnd' : k1 ∉ keys rest ∧ (keys rest).Nodup := List.nodup_cons.mp hnd
    simp only [get?] at h
    by_cases hk : k1 = k
    · rw [if_pos hk] at h
      injection h with hv
      subst hk
      subst hv
      rw [List.filter_cons]
      by_cases hf : f (k1, v1) = true
      · rw [if_pos hf, if_pos hf]
        simp [get?]
      · rw [if_neg hf, if_neg hf]
        exact get?_filter_of_none rest f k1
          (get?_eq_none_of_not_mem_keys rest k1 hnd'.1)
    · rw [if_neg hk] at h
      rw [List.filter_cons]
      by_cases hf : f (k1, v1) = true
      · rw [if_pos hf]
        simp only [get?, if_neg hk]
        exact ih hnd'.2 h
      · rw [if_neg hf]
        exact ih hnd'.2 h

theorem nodup_keys_set {α} (m : JsMap κ α) (k : κ) (v : α)
    (hnd : (keys m).Nodup) : (keys (set m k v)).Nodup := by
  rw [keys_set]
  by_cases h : k ∈ keys m
  · rw [if_pos h]
    exact hnd
  · rw [if_neg h]
    simp [List.nodup_append, hnd, h]

theorem keys_filter_sublist {α} (m : JsMap κ α) (f : κ × α → Bool) :
    List.Sublist (keys (m.filter f)) (keys m) :=
  (List.filter_sublist m).map Prod.fst

theorem countP_fst_eq {α} (m : JsMap κ α) (k : κ) (hnd : (keys m).Nodup) :
    List.countP (fun kv => decide (kv.1 = k)) m =
      if k ∈ keys m then 1 else 0 := by
  induction m with
  | nil => simp [keys]
  | cons kv rest ih =>
    have hnd' : kv.1 ∉ keys rest ∧ (keys rest).Nodup := List.nodup_cons.mp hnd
    rw [List.countP_cons, ih hnd'.2]
    by_cases hk : kv.1 = k
    · have h1 : k ∉ keys rest := by
        rw [← hk]
        exact hnd'.1
      rw [if_neg h1, if_pos (show decide (kv.1 = k) = true by simp [hk]),
        if_pos (show k ∈ keys (kv :: rest) from
          List.mem_cons.mpr (Or.inl hk.symm))]
    · rw [if_neg (show ¬ decide (kv.1 = k) = true by simp [hk])]
      by_cases hr : k ∈ keys rest
      · rw [if_pos hr,
          if_pos (show k ∈ keys (kv :: rest) from
            List.mem_cons.mpr (Or.inr hr))]
      · rw [if_neg hr,
          if_neg (show ¬ k ∈ keys (kv :: rest) from fun hmm =>
            (List.mem_cons.mp hmm).elim (fun he => hk he.symm) hr)]

end JsMap

/-- Splitting a sum over a duplicate-free list at one of its members. -/
theorem map_sum_split (l : List String) (f : String → ℚ) (d : String)
    (hl : l.Nodup) (hd : d ∈ l) :
    (l.map f).sum = f d + ((l.filter (fun e => e ≠ d)).map f).sum := by
  induction l with
  | nil => cases hd
  | cons a rest ih =>
    obtain ⟨hna, hndr⟩ := List.nodup_cons.mp hl
    by_cases had : a = d
    · subst had
      have hrest : rest.filter (fun e => e ≠ a) = rest :=
        List.filter_eq_self.mpr (fun b hb => by
          have hba : b ≠ a := fun he => hna (he ▸ hb)
          simpa using hba)
      have hhead :
          (a :: rest).filter (fun e => e ≠ a) =
            rest.filter (fun e => e ≠ a) := by
        rw [List.filter_cons, if_neg (by simp)]
      rw [hhead, hrest, List.map_cons, List.sum_cons]
    · have hd2 : d ∈ rest := by
        rcases List.mem_cons.mp hd with h1 | h1
        · exact absurd h1.symm had
        · exact h1
      have hhead :
          (a :: rest).filter (fun e => e ≠ d) =
            a :: rest.filter (fun e => e ≠ d) := by
        rw [List.filter_cons, if_pos (by simpa using had)]
      rw [List.map_cons, List.sum_cons, hhead, List.map_cons,
        List.sum_cons, ih hndr hd2]
      ring

/-- Scaling every term of a sum. -/
theorem map_scale_sum (es : List String) (h : String → ℚ) (S T : ℚ) :
    (es.map (fun e => h e / S * T)).sum = (es.map h).sum / S * T := by
  induction es with
  | nil => simp
  | cons e rest ih =>
    simp only [List.map_cons, List.sum_cons, ih]
    ring

/-- The variations drift keeps the key set, keeps the total mass at 1,
and keeps every weight non-negative — essentially because the dominant
weight moves to `min 1 (d + drift)` and the others are rescaled to sum
exactly to the remaining mass (or are all zero, in which case the
dominant weight was the whole unit mass and stays there). -/
theorem driftVariations_props (vars : JsMap String ℚ) (dominant : String)
    (drift : ℚ) (hnd : vars.keys.Nodup) (hsum : JsMap.sumVals vars = 1)
    (hnn : ∀ kv ∈ vars, 0 ≤ kv.2) (hdrift : 0 ≤ drift) :
    (CharacterKernel.driftVariations vars dominant drift).keys = vars.keys ∧
    JsMap.sumVals (CharacterKernel.driftVariations vars dominant drift) =
      1 ∧
    ∀ kv ∈ CharacterKernel.driftVariations vars dominant drift, 0 ≤ kv.2 := by
  unfold CharacterKernel.driftVariations
  by_cases hdom : (vars.get? dominant).isSome
  case neg =>
    rw [if_neg hdom]
    exact ⟨rfl, hsum, hnn⟩
  case pos =>
  rw [if_pos hdom]
  obtain ⟨d, hd⟩ := Option.isSome_iff_exists.mp hdom
  have hgetD : (vars.get? dominant).getD 0 = d := by rw [hd]; rfl
  have hdm : dominant ∈ vars.keys :=
    JsMap.mem_keys_of_get?_eq_some vars dominant d hd
  have hdnn : 0 ≤ d := hnn (dominant, d) (JsMap.mem_of_get?_eq_some _ _ _ hd)
  simp only [hgetD]
  set du := min 1 (d + drift) with hdu
  have hdunn : 0 ≤ du := le_min (by norm_num) (by linarith)
  have hdule : du ≤ 1 := min_le_left _ _
  set varsD := vars.set dominant du with hvarsD
  have hkeysD : varsD.keys = vars.keys := by
    rw [hvarsD, JsMap.keys_set, if_pos hdm]
  have hndD : varsD.keys.Nodup := by rw [hkeysD]; exact hnd
  have hsumD : JsMap.sumVals varsD = 1 + du - d := by
    rw [hvarsD, JsMap.sumVals_set, hsum, hgetD]
  have hDdom : varsD.get? dominant = some du := JsMap.get?_set_self _ _ _
  have hDnn : ∀ kv ∈ varsD, 0 ≤ kv.2 := by
    intro kv hkv
    rcases JsMap.mem_set_elim _ _ _ _ hkv with h1 | h1
    · exact hnn kv h1
    · rw [h1]
      exact hdunn
  have hDget : ∀ x w, varsD.get? x = some w → 0 ≤ w := fun x w hx =>
    hDnn (x, w) (JsMap.mem_of_get?_eq_some _ _ _ hx)
  set es := varsD.keys.filter (fun e => e ≠ dominant) with hes
  have hesnd : es.Nodup := List.Nodup.filter _ hndD
  have hessub : ∀ e ∈ es, e ∈ varsD.keys := fun e he =>
    List.mem_of_mem_filter he
  have hdnotes : dominant ∉ es := by
    intro hmem
    have := List.of_mem_filter hmem
    simp at this
  set S := (es.map (fun e => (varsD.get? e).getD 0)).sum with hS
  have hsplitD :
      JsMap.sumVals varsD = du + S := by
    have h1 := JsMap.keys_map_getD varsD hndD
    have h2 :=
      map_sum_split varsD.keys (fun k => (varsD.get? k).getD 0) dominant
        hndD (by rw [hkeysD]; exact hdm)
    rw [h1] at h2
    simp only at h2
    have h3 : JsMap.sumVals varsD = (varsD.map Prod.snd).sum := rfl
    rw [h3, h2, hDdom]
    rfl
  have hSval : S = 1 - d := by
    have := hsplitD
    rw [hsumD] at this
    linarith
  have hSnn : 0 ≤ S := by
    rw [hS]
    apply List.sum_nonneg
    intro x hx
    obtain ⟨e, _, hex⟩ := List.mem_map.mp hx
    rcases hxe : varsD.get? e with _ | w
    · rw [hxe] at hex
      simp at hex
      rw [← hex]
    · rw [hxe] at hex
      have := hDget e w hxe
      rw [← hex]
      simpa using this
  by_cases hpos : 0 < S
  case pos =>
    rw [if_pos hpos]
    set T := 1 - du with hT
    have hTnn : 0 ≤ T := by rw [hT]; linarith
    set res :=
      es.foldl
        (fun acc e => acc.set e (((acc.get? e).getD 0) / S * T)) varsD
      with hres
    have hkeysres : res.keys = varsD.keys :=
      JsMap.foldl_set_keys _ es varsD hessub
    have hndres : res.keys.Nodup := by rw [hkeysres]; exact hndD
    have hresdom : res.get? dominant = some du := by
      rw [hres, JsMap.foldl_set_get?_not_mem _ es varsD dominant hdnotes]
      exact hDdom
    have hreses :
        ∀ e ∈ es,
          res.get? e = some (((varsD.get? e).getD 0) / S * T) := by
      intro e he
      rw [hres]
      exact JsMap.foldl_scale_get?_mem S T es varsD e hesnd he
    refine ⟨by rw [hkeysres, hkeysD], ?_, ?_⟩
    · have h1 := JsMap.keys_map_getD res hndres
      have h2 :=
        map_sum_split res.keys (fun k => (res.get? k).getD 0) dominant
          hndres (by rw [hkeysres, hkeysD]; exact hdm)
      rw [h1] at h2
      simp only at h2
      have hfilter :
          res.keys.filter (fun e => e ≠ dominant) = es := by
        rw [hkeysres, hes]
      have hcongr :
          (es.map (fun k => (res.get? k).getD 0)) =
            es.map (fun e => ((varsD.get? e).getD 0) / S * T) := by
        apply List.map_congr_left
        intro e he
        rw [hreses e he]
        rfl
      have hsumres : JsMap.sumVals res = (res.map Prod.snd).sum := rfl
      rw [hsumres, h2, hresdom, hfilter, hcongr, map_scale_sum, ← hS,
        div_self (ne_of_gt hpos)]
      simp [hT]
    · intro kv hkv
      have hmemkey : kv.1 ∈ res.keys := by
        apply List.mem_map.mpr
        exact ⟨kv, hkv, rfl⟩
      have hget := JsMap.get?_of_mem_nodup res kv hndres hkv
      by_cases hkd : kv.1 = dominant
      · rw [hkd, hresdom] at hget
        have : kv.2 = du := by
          injection hget with h
          exact h.symm
        rw [this]
        exact hdunn
      · have hines : kv.1 ∈ es := by
          rw [hes]
          apply List.mem_filter.mpr
          refine ⟨by rw [← hkeysres]; exact hmemkey, by simpa using hkd⟩
        rw [hreses kv.1 hines] at hget
        have : kv.2 = ((varsD.get? kv.1).getD 0) / S * T := by
          injection hget with h
          exact h.symm
        rw [this]
        have hvnn : 0 ≤ (varsD.get? kv.1).getD 0 := by
          rcases hxe : varsD.get? kv.1 with _ | w
          · simp
          · simpa using hDget kv.1 w hxe
        exact mul_nonneg (div_nonneg hvnn hSnn) hTnn
  case neg =>
    rw [if_neg hpos]
    have hSzero : S = 0 := le_antisymm (not_lt.mp hpos) hSnn
    have hd1 : d = 1 := by
      rw [hSval] at hSzero
      linarith
    have hdu1 : du = 1 := by
      rw [hdu, hd1, min_eq_left (by linarith)]
    refine ⟨hkeysD, ?_, hDnn⟩
    rw [hsumD, hdu1, hd1]
    ring

/-- One `applyMutation` call, seen through the references: the actor
keeps its mutation-schema reference, the schema heap is untouched, and
the actor's (shared) variations cell now holds the drifted
distribution. -/
theorem applyMutation_sees (k : CharacterKernel) (cid : String)
    (fold : RecursionFold) (c : CharacterField) (schema : MutationSchema)
    (tone : ToneObj) (vars : JsMap String ℚ)
    (hc : k.characters.get? cid = some c)
    (hs : k.heapSchemas.get? c.mutationSchema = some schema)
    (ht : k.heapTones.get? c.toneProfile = some tone)
    (hv : k.heapVars.get? tone.variationsRef = some vars) :
    ∃ c' tone',
      (CharacterKernel.applyMutation cid fold k).characters.get? cid =
        some c' ∧
      c'.mutationSchema = c.mutationSchema ∧
      (CharacterKernel.applyMutation cid fold k).heapSchemas =
        k.heapSchemas ∧
      (CharacterKernel.applyMutation cid fold k).heapTones.get?
        c'.toneProfile = some tone' ∧
      tone'.variationsRef = tone.variationsRef ∧
      (CharacterKernel.applyMutation cid fold k).heapVars.get?
        tone.variationsRef =
        some
          (CharacterKernel.driftVariations vars fold.emotionalState.dominant
            (schema.driftRate * fold.emotionalState.intensity)) := by
  unfold CharacterKernel.applyMutation CharacterKernel.getCharacter
  rw [hc]
  simp only
  rw [hs, ht]
  simp only
  rw [hv]
  simp only
  exact ⟨_, _, JsMap.get?_set_self _ _ _, rfl, by trivial,
    JsMap.get?_set_self _ _ _, rfl, JsMap.get?_set_self _ _ _⟩

/-- Iterated `applyMutation` on one actor: every intermediate state still
resolves the actor's distribution, whose key set is unchanged, whose mass
is still 1, and whose weights are still non-negative. -/
theorem mutateAll_sum_invariant (folds : List RecursionFold)
    (k : CharacterKernel) (cid : String) (c : CharacterField)
    (schema : MutationSchema) (tone : ToneObj) (vars : JsMap String ℚ)
    (hc : k.characters.get? cid = some c)
    (hs : k.heapSchemas.get? c.mutationSchema = some schema)
    (ht : k.heapTones.get? c.toneProfile = some tone)
    (hv : k.heapVars.get? tone.variationsRef = some vars)
    (hnd : vars.keys.Nodup) (hsum : JsMap.sumVals vars = 1)
    (hnn : ∀ kv ∈ vars, 0 ≤ kv.2) (hdrift : 0 ≤ schema.driftRate)
    (hfolds : ∀ f ∈ folds, 0 ≤ f.emotionalState.intensity) :
    ∃ c' tone' vars',
      (CharacterKernel.mutateAll cid folds k).characters.get? cid =
        some c' ∧
      c'.mutationSchema = c.mutationSchema ∧
      (CharacterKernel.mutateAll cid folds k).heapSchemas.get?
        c.mutationSchema = some schema ∧
      (CharacterKernel.mutateAll cid folds k).heapTones.get?
        c'.toneProfile = some tone' ∧
      (CharacterKernel.mutateAll cid folds k).heapVars.get?
        tone'.variationsRef = some vars' ∧
      vars'.keys = vars.keys ∧
      JsMap.sumVals vars' = 1 ∧
      (∀ kv ∈ vars', 0 ≤ kv.2) ∧
      CharacterKernel.viewVariations (CharacterKernel.mutateAll cid folds k)
        cid = some vars' := by
  induction folds generalizing k c tone vars with
  | nil =>
    refine ⟨c, tone, vars, hc, rfl, hs, ht, hv, rfl, hsum, hnn, ?_⟩
    unfold CharacterKernel.viewVariations CharacterKernel.viewToneProfile
      CharacterKernel.getCharacter
    unfold CharacterKernel.mutateAll
    simp only [List.foldl_nil]
    rw [hc]
    simp only
    rw [ht]
    simp only
    rw [hv]
  | cons f rest ih =>
    obtain ⟨c1, tone1, hc1, hcs1, hsch1, ht1, htv1, hv1⟩ :=
      applyMutation_sees k cid f c schema tone vars hc hs ht hv
    have hdint : 0 ≤ schema.driftRate * f.emotionalState.intensity :=
      mul_nonneg hdrift (hfolds f (List.mem_cons_self f rest))
    obtain ⟨hkeys1, hsum1, hnn1⟩ :=
      driftVariations_props vars f.emotionalState.dominant
        (schema.driftRate * f.emotionalState.intensity) hnd hsum hnn hdint
    set k1 := CharacterKernel.applyMutation cid f k with hk1
    have hmut :
        CharacterKernel.mutateAll cid (f :: rest) k =
          CharacterKernel.mutateAll cid rest k1 := rfl
    have hs1 : k1.heapSchemas.get? c1.mutationSchema = some schema := by
      rw [hcs1, hsch1]
      exact hs
    have hv1' :
        k1.heapVars.get? tone1.variationsRef =
          some
            (CharacterKernel.driftVariations vars
              f.emotionalState.dominant
              (schema.driftRate * f.emotionalState.intensity)) := by
      rw [htv1]
      exact hv1
    have hnd1 :
        (CharacterKernel.driftVariations vars f.emotionalState.dominant
            (schema.driftRate * f.emotionalState.intensity)).keys.Nodup := by
      rw [hkeys1]
      exact hnd
    obtain ⟨c2, tone2, vars2, h1, h2, h3, h4, h5, h6, h7, h8, h9⟩ :=
      ih k1 c1 tone1 _ hc1 hs1 ht1 hv1' hnd1 hsum1 hnn1
        (fun f' hf' => hfolds f' (List.mem_cons_of_mem _ hf'))
    rw [hmut]
    refine ⟨c2, tone2, vars2, h1, h2.trans hcs1, ?_, h4, h5, ?_, h7, h8, h9⟩
    · rw [← hcs1]
      exact h3
    · rw [h6, hkeys1]

/-- Appending to the same string on the left is injective on the right. -/
theorem string_append_cancel_left {a b c : String} (h : a ++ b = a ++ c) :
    b = c := by
  have h2 := congrArg String.data h
  simp only [String.data_append] at h2
  exact String.ext (List.append_cancel_left h2)

namespace MemoryGraphStore

/-- `addEdge` never changes the node set. -/
theorem addEdge_graphNodes (e : MemoryEdge) (g : MemoryGraphStore) :
    ((addEdge e g).1).graphNodes = g.graphNodes := by
  unfold addEdge
  split <;> rfl

/-- On present endpoints `addEdge` records the edge and reports no error. -/
theorem addEdge_ok (e : MemoryEdge) (g : MemoryGraphStore)
    (h1 : g.hasNode e.source = true) (h2 : g.hasNode e.target = true) :
    addEdge e g =
      ({ g with
         edges := g.edges.set (edgeKey e) e
         graphEdges := g.graphEdges.set (e.source, e.target) e }, none) := by
  simp [addEdge, h1, h2]

/-- A failing `addEdge` hands back the untouched store. -/
theorem addEdge_error_unchanged (e : MemoryEdge) (g g' : MemoryGraphStore)
    (err : String) (h : addEdge e g = (g', some err)) : g' = g := by
  unfold addEdge at h
  by_cases hc : ¬ (g.hasNode e.source = true ∧ g.hasNode e.target = true)
  · rw [if_pos hc] at h
    injection h with h1 h2
    exact h1.symm
  · rw [if_neg hc] at h
    injection h with h1 h2
    exact absurd h2 (by simp)

/-- `addNode` registers its node's id in graphlib. -/
theorem addNode_mem_self (g : MemoryGraphStore) (node : MemoryNode) :
    node.id ∈ (g.addNode node).graphNodes := by
  simp only [addNode]
  by_cases h : node.id ∈ g.graphNodes
  · rw [if_pos h]
    exact h
  · rw [if_neg h]
    exact List.mem_append.mpr (Or.inr (List.mem_cons_self _ _))

/-- `addNode` never removes a node id. -/
theorem addNode_mem_mono (g : MemoryGraphStore) (node : MemoryNode)
    (x : String) (h : x ∈ g.graphNodes) :
    x ∈ (g.addNode node).graphNodes := by
  simp only [addNode]
  by_cases h2 : node.id ∈ g.graphNodes
  · rw [if_pos h2]
    exact h
  · rw [if_neg h2]
    exact List.mem_append.mpr (Or.inl h)

/-- Edges on the same node pair with different `type`s have different keys
in the `edges` map. -/
theorem edgeKey_ne_of_type_ne (e1 e2 : MemoryEdge) (hs : e2.source = e1.source)
    (ht : e2.target = e1.target) (hk : e2.type ≠ e1.type) :
    edgeKey e2 ≠ edgeKey e1 := by
  unfold edgeKey
  rw [hs, ht]
  intro h
  exact hk (string_append_cancel_left h)

end MemoryGraphStore

/-- C7.  `addEdge` fails (with the missing-endpoint error) exactly when at
least one endpoint id is absent from the store, and a failing call returns
the store unchanged (same nodes, edges and adjacency). -/
theorem addEdge_missing_endpoint_iff (g : McTavish.MemoryGraphStore)
    (e : McTavish.MemoryEdge) :
    (((MemoryGraphStore.addEdge e g).2).isSome = true ↔
      (g.hasNode e.source = false ∨ g.hasNode e.target = false)) ∧
    (((MemoryGraphStore.addEdge e g).2).isSome = true →
      (MemoryGraphStore.addEdge e g).1 = g) := by
  cases hs : g.hasNode e.source <;> cases ht : g.hasNode e.target <;>
    simp [MemoryGraphStore.addEdge, hs, ht]

/-- Witness for C7: inserting `wMissingEdge` (absent target) into `wStore`
fails and leaves the store untouched. -/
theorem addEdge_missing_endpoint_iff_witness :
    ((MemoryGraphStore.addEdge wMissingEdge wStore).2).isSome = true ∧
    (MemoryGraphStore.addEdge wMissingEdge wStore).1 = wStore := by
  have h := addEdge_missing_endpoint_iff wStore wMissingEdge
  have hfail : ((MemoryGraphStore.addEdge wMissingEdge wStore).2).isSome = true :=
    h.1.mpr (Or.inr (by decide))
  exact ⟨hfail, h.2 hfail⟩

/-- C10.  Two edges between the same source and target with different
kinds: the all-edges listing keeps both records (their `edges`-map keys
differ), while `getEdgesBetween` — graphlib's per-pair label — returns
only the edge inserted last, whatever its kind. -/
theorem edgesBetween_sees_last_insertion (g : McTavish.MemoryGraphStore)
    (e1 e2 : McTavish.MemoryEdge)
    (hs : e2.source = e1.source) (ht : e2.target = e1.target)
    (hk : e2.type ≠ e1.type)
    (h1 : g.hasNode e1.source = true) (h2 : g.hasNode e1.target = true) :
    e1 ∈
      (((MemoryGraphStore.addEdge e2
          (MemoryGraphStore.addEdge e1 g).1).1).getAllEdges) ∧
    e2 ∈
      (((MemoryGraphStore.addEdge e2
          (MemoryGraphStore.addEdge e1 g).1).1).getAllEdges) ∧
    ((MemoryGraphStore.addEdge e2
        (MemoryGraphStore.addEdge e1 g).1).1).getEdgesBetween e1.source
        e1.target = [e2] := by
  have hg1 := MemoryGraphStore.addEdge_ok e1 g h1 h2
  set g1 := (MemoryGraphStore.addEdge e1 g).1 with hg1def
  have h1' : g1.hasNode e2.source = true := by
    rw [hg1def, hs]
    have := MemoryGraphStore.addEdge_graphNodes e1 g
    simpa [MemoryGraphStore.hasNode, this] using h1
  have h2' : g1.hasNode e2.target = true := by
    rw [hg1def, ht]
    have := MemoryGraphStore.addEdge_graphNodes e1 g
    simpa [MemoryGraphStore.hasNode, this] using h2
  have hg2 := MemoryGraphStore.addEdge_ok e2 g1 h1' h2'
  have hkey := MemoryGraphStore.edgeKey_ne_of_type_ne e1 e2 hs ht hk
  refine ⟨?_, ?_, ?_⟩
  · apply JsMap.get?_mem_values _ (MemoryGraphStore.edgeKey e1)
    rw [hg2]
    simp only
    rw [JsMap.get?_set_ne _ _ _ _ hkey, hg1def, hg1]
    exact JsMap.get?_set_self _ _ _
  · apply JsMap.get?_mem_values _ (MemoryGraphStore.edgeKey e2)
    rw [hg2]
    simp only
    exact JsMap.get?_set_self _ _ _
  · unfold MemoryGraphStore.getEdgesBetween
    rw [hg2]
    simp only
    rw [hs, ht, JsMap.get?_set_self]

/-! ### Deferred binding (C1) -/

/-- Full symbolic execution of the C1 run: the deferred scan creates the
edge and pushes the fold into the binding record, and `processFracture`
then resets that record to an empty one. -/
theorem c1_run_eq : c1Run =
    ({ memoryGraph :=
         { graphNodes := ["fold-1", "fracture-1"]
           graphEdges := [(("fold-1", "fracture-1"), c1EdgeSym)]
           nodes := [("fold-1", c1FoldNode), ("fracture-1", c1FracNode)]
           edges := [("fold-1-fracture-1-causality", c1EdgeSym)] }
       pendingBindings :=
         [("fracture-1",
           { fractureId := "fracture-1", boundFoldIds := []
             selectedFoldId := none, timestamp := 1, status := "pending" })]
       selectedResponses := []
       events := [.deferredFold "fold-1", .foldBinding "fold-1" "fracture-1"] },
     none) := by
  have hsimC : simCounts "the garden burned" "the garden burned" = (3, 3) := by
    decide
  have hgt :
      (1/2 : ℚ) <
        calculateContentSimilarity "the garden burned" "the garden burned" := by
    simp only [calculateContentSimilarity, hsimC]
    norm_num
  have h1 : c1State1 =
      { memoryGraph :=
          { graphNodes := ["fold-1"], graphEdges := []
            nodes := [("fold-1", c1FoldNode)], edges := [] }
        pendingBindings := [], selectedResponses := []
        events := [.deferredFold "fold-1"] } := rfl
  unfold c1Run InteractionBindingLogic.processFracture
  rw [h1]
  simp only [InteractionBindingLogic.checkDeferredBindings,
    MemoryGraphStore.addFracture, MemoryGraphStore.addNode,
    MemoryGraphStore.getNodesByType, JsMap.values, JsMap.set, List.map,
    List.filter, Metadata.truthy, Metadata.lookup, List.find?,
    InteractionBindingLogic.deferredLoop]
  simp only [c1FoldNode, c1Fracture]
  rw [if_pos hgt]
  rfl

/-- C1 at the failing input (code_bug): after `c1Run` the `causality`
edge from the reaction to the stimulus exists with weight equal to the
similarity (here 1) and the `deferred` tag, and the `fold_binding`
interaction was even emitted — but the stimulus's bound-reaction list, as
returned by `getResponsesForFracture`, is empty, because
`processFracture` resets the binding record after the deferred scan
already filled it. -/
theorem deferred_binding_record_overwritten :
    c1Run.2 = none ∧
    (c1Run.1.memoryGraph.getEdgesBetween "fold-1" "fracture-1").map
      (fun e => (e.type, e.weight, e.metadata.lookup "bindingType")) =
      [("causality", (1 : ℚ), some (.str "deferred"))] ∧
    c1Run.1.events =
      [.deferredFold "fold-1", .foldBinding "fold-1" "fracture-1"] ∧
    InteractionBindingLogic.getResponsesForFracture c1Run.1 "fracture-1" =
      [] := by
  have hsimC : simCounts "the garden burned" "the garden burned" = (3, 3) := by
    decide
  have hsim :
      calculateContentSimilarity "the garden burned" "the garden burned" =
        1 := by
    simp only [calculateContentSimilarity, hsimC]
    norm_num
  refine ⟨by rw [c1_run_eq], ?_, by rw [c1_run_eq],
    by rw [c1_run_eq]; rfl⟩
  rw [c1_run_eq]
  simp only [MemoryGraphStore.getEdgesBetween, JsMap.get?, List.map,
    Metadata.lookup, List.find?, c1EdgeSym, hsim]
  rfl

/-! ### Echo lifecycle (C5) -/

namespace PremonitionMatcher

/-- What one matching pass does, seen from one echo id `pid`: the turn
counter, node set, key set and expiry notifications are untouched; if
every pending entry for `pid` is skipped (already bound or past its
window) then `pid`'s map entry and binding notifications are untouched;
any pending entry for `pid` keeps its premonition and expiry turn; and
well-formed entries stay well-formed, with no exception thrown when the
stimulus node is present. -/
theorem processLoop_facts (f : FractureEvent) (now : Nat) (pid : String)
    (pending : List (String × PremonitionState)) :
    ∀ m : PremonitionMatcher,
    (∀ kv ∈ pending, kv.1 = kv.2.premonition.id) →
    (∀ kv ∈ pending, kv.1 ∈ m.activePremonitions.keys) →
    (pending.map Prod.fst).Nodup →
    (∀ kv ∈ pending, m.activePremonitions.get? kv.1 = some kv.2) →
    (processLoop f now pending m).1.turnCounter = m.turnCounter ∧
    (processLoop f now pending m).1.memoryGraph.graphNodes =
      m.memoryGraph.graphNodes ∧
    (processLoop f now pending m).1.activePremonitions.keys =
      m.activePremonitions.keys ∧
    expiryCount pid (processLoop f now pending m).1 = expiryCount pid m ∧
    ((∀ st : PremonitionState, (pid, st) ∈ pending →
        st.isBound = true ∨ m.turnCounter > st.expiresAtTurn) →
      (processLoop f now pending m).1.activePremonitions.get? pid =
        m.activePremonitions.get? pid ∧
      bindCount pid (processLoop f now pending m).1 = bindCount pid m) ∧
    (∀ st : PremonitionState, (pid, st) ∈ pending →
      ∃ st',
        (processLoop f now pending m).1.activePremonitions.get? pid =
          some st' ∧
        st'.premonition = st.premonition ∧
        st'.expiresAtTurn = st.expiresAtTurn) ∧
    ((∀ kv ∈ pending, EntryOk m.memoryGraph.graphNodes kv) →
      (∀ kv ∈ m.activePremonitions,
        EntryOk m.memoryGraph.graphNodes kv) →
      (∀ kv ∈ (processLoop f now pending m).1.activePremonitions,
        EntryOk m.memoryGraph.graphNodes kv) ∧
      (f.id ∈ m.memoryGraph.graphNodes →
        (processLoop f now pending m).2 = none)) := by
  induction pending with
  | nil =>
    intro m _ _ _ _
    refine ⟨rfl, rfl, rfl, rfl, fun _ => ⟨rfl, rfl⟩, ?_, ?_⟩
    · intro st hst
      cases hst
    · intro _ hok
      exact ⟨hok, fun _ => rfl⟩
  | cons kv rest ih =>
    intro m hids hmem hnodup hsnap
    obtain ⟨id, st⟩ := kv
    have hid : id = st.premonition.id := hids (id, st) (List.mem_cons_self _ _)
    have hidmem : id ∈ m.activePremonitions.keys :=
      hmem (id, st) (List.mem_cons_self _ _)
    have hnodup1 : id ∉ rest.map Prod.fst :=
      (List.nodup_cons.mp hnodup).1
    have hnodupr : (rest.map Prod.fst).Nodup :=
      (List.nodup_cons.mp hnodup).2
    by_cases hskip : (st.isBound = true) ∨ m.turnCounter > st.expiresAtTurn
    · -- skipped entry
      have hloop :
          processLoop f now ((id, st) :: rest) m =
            processLoop f now rest m := by
        simp only [processLoop]
        rw [if_pos hskip]
      rw [hloop]
      obtain ⟨a1, a2, a3, a4, a5, a6, a7⟩ :=
        ih m (fun kv h => hids kv (List.mem_cons_of_mem _ h))
          (fun kv h => hmem kv (List.mem_cons_of_mem _ h)) hnodupr
          (fun kv h => hsnap kv (List.mem_cons_of_mem _ h))
      refine ⟨a1, a2, a3, a4, ?_, ?_, ?_⟩
      · intro hall
        exact a5 (fun st' h => hall st' (List.mem_cons_of_mem _ h))
      · intro st' hst'
        rcases List.mem_cons.mp hst' with h1 | h1
        · have hpid : pid = id := congrArg Prod.fst h1
          have hst : st' = st := congrArg Prod.snd h1
          obtain ⟨g1, g2⟩ :=
            a5 (fun st2 h2 =>
              absurd (hpid ▸ List.mem_map.mpr ⟨(pid, st2), h2, rfl⟩)
                hnodup1)
          refine ⟨st, ?_, by rw [hst], by rw [hst]⟩
          rw [g1, hpid]
          exact hsnap (id, st) (List.mem_cons_self _ _)
        · exact a6 st' h1
      · intro hok hok2
        exact a7 (fun kv h => hok kv (List.mem_cons_of_mem _ h)) hok2
    · -- processed entry
      have hmemr : ∀ kv ∈ rest, kv.1 ∈ m.activePremonitions.keys :=
        fun kv h => hmem kv (List.mem_cons_of_mem _ h)
      have hidsr : ∀ kv ∈ rest, kv.1 = kv.2.premonition.id :=
        fun kv h => hids kv (List.mem_cons_of_mem _ h)
      have hsnapr : ∀ kv ∈ rest, m.activePremonitions.get? kv.1 = some kv.2 :=
        fun kv h => hsnap kv (List.mem_cons_of_mem _ h)
      have hkeys1 :
          (m.activePremonitions.set id
            { premonition := st.premonition, createdAtTurn := st.createdAtTurn
              expiresAtTurn := st.expiresAtTurn
              bindingAttempts := st.bindingAttempts + 1
              isBound := st.isBound }).keys = m.activePremonitions.keys := by
        rw [JsMap.keys_set, if_pos hidmem]
      have hsnap1 : ∀ kv ∈ rest,
          (m.activePremonitions.set id
            { premonition := st.premonition, createdAtTurn := st.createdAtTurn
              expiresAtTurn := st.expiresAtTurn
              bindingAttempts := st.bindingAttempts + 1
              isBound := st.isBound }).get? kv.1 = some kv.2 := by
        intro kv h
        rw [JsMap.get?_set_ne _ _ _ _
          (fun he => hnodup1 (by rw [he]; exact List.mem_map.mpr ⟨kv, h, rfl⟩))]
        exact hsnapr kv h
      have hmem1 : ∀ kv ∈ rest,
          kv.1 ∈ (m.activePremonitions.set id
            { premonition := st.premonition, createdAtTurn := st.createdAtTurn
              expiresAtTurn := st.expiresAtTurn
              bindingAttempts := st.bindingAttempts + 1
              isBound := st.isBound }).keys := by
        intro kv h
        rw [hkeys1]
        exact hmemr kv h
      by_cases hth :
        getBindingThreshold
            { premonition := st.premonition, createdAtTurn := st.createdAtTurn
              expiresAtTurn := st.expiresAtTurn
              bindingAttempts := st.bindingAttempts + 1
              isBound := st.isBound } m.turnCounter ≤
          calculateMatchScore st.premonition f
      case neg =>
        -- below threshold: only the attempt counter moved
        have hloop :
            processLoop f now ((id, st) :: rest) m =
              processLoop f now rest
                { memoryGraph := m.memoryGraph
                  activePremonitions :=
                    m.activePremonitions.set id
                      { premonition := st.premonition
                        createdAtTurn := st.createdAtTurn
                        expiresAtTurn := st.expiresAtTurn
                        bindingAttempts := st.bindingAttempts + 1
                        isBound := st.isBound }
                  turnCounter := m.turnCounter
                  events := m.events } := by
          simp only [processLoop]
          rw [if_neg hskip, if_neg hth]
        rw [hloop]
        obtain ⟨a1, a2, a3, a4, a5, a6, a7⟩ :=
          ih { memoryGraph := m.memoryGraph
               activePremonitions :=
                 m.activePremonitions.set id
                   { premonition := st.premonition
                     createdAtTurn := st.createdAtTurn
                     expiresAtTurn := st.expiresAtTurn
                     bindingAttempts := st.bindingAttempts + 1
                     isBound := st.isBound }
               turnCounter := m.turnCounter
               events := m.events } hidsr hmem1 hnodupr hsnap1
        refine ⟨a1, a2, a3.trans hkeys1, a4, ?_, ?_, ?_⟩
        · intro hall
          by_cases hpid : pid = id
          · exact absurd (hall st (by rw [hpid]; exact List.mem_cons_self _ _))
              hskip
          · obtain ⟨g1, g2⟩ :=
              a5 (fun st0 h0 => hall st0 (List.mem_cons_of_mem _ h0))
            refine ⟨?_, g2⟩
            rw [g1]
            exact JsMap.get?_set_ne _ _ _ _ (fun he => hpid he.symm)
        · intro st0 h0
          rcases List.mem_cons.mp h0 with h1 | h1
          · have hpid : pid = id := congrArg Prod.fst h1
            have hst0 : st0 = st := congrArg Prod.snd h1
            obtain ⟨g1, g2⟩ :=
              a5 (fun st2 h2 =>
                absurd
                  (show id ∈ List.map Prod.fst rest by
                    rw [← hpid]; exact List.mem_map.mpr ⟨(pid, st2), h2, rfl⟩)
                  hnodup1)
            refine ⟨{ premonition := st.premonition
                      createdAtTurn := st.createdAtTurn
                      expiresAtTurn := st.expiresAtTurn
                      bindingAttempts := st.bindingAttempts + 1
                      isBound := st.isBound }, ?_, ?_, ?_⟩
            · rw [g1, hpid]
              exact JsMap.get?_set_self _ _ _
            · rw [hst0]
            · rw [hst0]
          · exact a6 st0 h1
        · intro hok hokm
          exact a7 (fun kv h => hok kv (List.mem_cons_of_mem _ h))
            (fun kv h => by
              rcases JsMap.mem_set_elim _ _ _ _ h with h1 | h1
              · exact hokm kv h1
              · rw [h1]
                exact ⟨hid, (hok (id, st) (List.mem_cons_self _ _)).2⟩)
      case pos =>
        -- threshold met: the edge insertion decides the rest
        rcases hadd :
          MemoryGraphStore.addEdge
            (bindPremonitionEdge st.premonition f now)
            m.memoryGraph with ⟨g, err⟩
        rcases err with _ | err
        · -- edge stored, echo bound, loop continues
          have hloop :
              processLoop f now ((id, st) :: rest) m =
                processLoop f now rest
                  { memoryGraph := g
                    activePremonitions :=
                      (m.activePremonitions.set id
                        { premonition := st.premonition
                          createdAtTurn := st.createdAtTurn
                          expiresAtTurn := st.expiresAtTurn
                          bindingAttempts := st.bindingAttempts + 1
                          isBound := st.isBound }).set id
                        { premonition := st.premonition
                          createdAtTurn := st.createdAtTurn
                          expiresAtTurn := st.expiresAtTurn
                          bindingAttempts := st.bindingAttempts + 1
                          isBound := true }
                    turnCounter := m.turnCounter
                    events :=
                      m.events ++
                        [MatcherEvent.binding st.premonition.id f.id
                          (calculateMatchScore st.premonition f)] } := by
            simp only [processLoop]
            rw [if_neg hskip, if_pos hth, hadd]
          rw [hloop]
          have hgnodes : g.graphNodes = m.memoryGraph.graphNodes := by
            have h2 := MemoryGraphStore.addEdge_graphNodes
              (bindPremonitionEdge st.premonition f now) m.memoryGraph
            rw [hadd] at h2
            exact h2
          have hkeys2 :
              ((m.activePremonitions.set id
                  { premonition := st.premonition
                    createdAtTurn := st.createdAtTurn
                    expiresAtTurn := st.expiresAtTurn
                    bindingAttempts := st.bindingAttempts + 1
                    isBound := st.isBound }).set id
                  { premonition := st.premonition
                    createdAtTurn := st.createdAtTurn
                    expiresAtTurn := st.expiresAtTurn
                    bindingAttempts := st.bindingAttempts + 1
                    isBound := true }).keys = m.activePremonitions.keys := by
            rw [JsMap.keys_set, if_pos (by rw [hkeys1]; exact hidmem), hkeys1]
          have hsnap2 : ∀ kv ∈ rest,
              ((m.activePremonitions.set id
                { premonition := st.premonition
                  createdAtTurn := st.createdAtTurn
                  expiresAtTurn := st.expiresAtTurn
                  bindingAttempts := st.bindingAttempts + 1
                  isBound := st.isBound }).set id
                { premonition := st.premonition
                  createdAtTurn := st.createdAtTurn
                  expiresAtTurn := st.expiresAtTurn
                  bindingAttempts := st.bindingAttempts + 1
                  isBound := true }).get? kv.1 = some kv.2 := by
            intro kv h
            have hne : id ≠ kv.1 := fun he => hnodup1
              (he ▸ List.mem_map.mpr ⟨kv, h, rfl⟩)
            rw [JsMap.get?_set_ne _ _ _ _ hne,
              JsMap.get?_set_ne _ _ _ _ hne]
            exact hsnapr kv h
          have hmem2 : ∀ kv ∈ rest,
              kv.1 ∈ ((m.activePremonitions.set id
                { premonition := st.premonition
                  createdAtTurn := st.createdAtTurn
                  expiresAtTurn := st.expiresAtTurn
                  bindingAttempts := st.bindingAttempts + 1
                  isBound := st.isBound }).set id
                { premonition := st.premonition
                  createdAtTurn := st.createdAtTurn
                  expiresAtTurn := st.expiresAtTurn
                  bindingAttempts := st.bindingAttempts + 1
                  isBound := true }).keys := by
            intro kv h
            rw [hkeys2]
            exact hmemr kv h
          obtain ⟨a1, a2, a3, a4, a5, a6, a7⟩ :=
            ih { memoryGraph := g
                 activePremonitions :=
                   (m.activePremonitions.set id
                     { premonition := st.premonition
                       createdAtTurn := st.createdAtTurn
                       expiresAtTurn := st.expiresAtTurn
                       bindingAttempts := st.bindingAttempts + 1
                       isBound := st.isBound }).set id
                     { premonition := st.premonition
                       createdAtTurn := st.createdAtTurn
                       expiresAtTurn := st.expiresAtTurn
                       bindingAttempts := st.bindingAttempts + 1
                       isBound := true }
                 turnCounter := m.turnCounter
                 events :=
                   m.events ++
                     [MatcherEvent.binding st.premonition.id f.id
                       (calculateMatchScore st.premonition f)] }
              hidsr hmem2 hnodupr hsnap2
          have hexp2 :
              (List.countP (isExpiryFor pid)
                (m.events ++
                  [MatcherEvent.binding st.premonition.id f.id
                    (calculateMatchScore st.premonition f)])) =
                List.countP (isExpiryFor pid) m.events := by
            rw [List.countP_append]
            simp [isExpiryFor]
          refine ⟨a1, a2.trans hgnodes, a3.trans hkeys2, ?_, ?_, ?_, ?_⟩
          · rw [a4]
            exact hexp2
          · intro hall
            by_cases hpid : pid = id
            · exact absurd
                (hall st (by rw [hpid]; exact List.mem_cons_self _ _)) hskip
            · obtain ⟨g1, g2⟩ :=
                a5 (fun st0 h0 => hall st0 (List.mem_cons_of_mem _ h0))
              have hne : id ≠ pid := fun he => hpid he.symm
              refine ⟨?_, ?_⟩
              · rw [g1]
                rw [JsMap.get?_set_ne _ _ _ _ hne,
                  JsMap.get?_set_ne _ _ _ _ hne]
              · rw [g2]
                have hbind2 :
                    List.countP (isBindingFor pid)
                      (m.events ++
                        [MatcherEvent.binding st.premonition.id f.id
                          (calculateMatchScore st.premonition f)]) =
                      List.countP (isBindingFor pid) m.events := by
                  rw [List.countP_append]
                  have hne2 : ¬ st.premonition.id = pid := by
                    rw [← hid]
                    exact fun he => hpid he.symm
                  simp [isBindingFor, hne2]
                exact hbind2
          · intro st0 h0
            rcases List.mem_cons.mp h0 with h1 | h1
            · have hpid : pid = id := congrArg Prod.fst h1
              have hst0 : st0 = st := congrArg Prod.snd h1
              obtain ⟨g1, g2⟩ :=
                a5 (fun st2 h2 =>
                  absurd
                    (show id ∈ List.map Prod.fst rest by
                      rw [← hpid]
                      exact List.mem_map.mpr ⟨(pid, st2), h2, rfl⟩)
                    hnodup1)
              refine ⟨{ premonition := st.premonition
                        createdAtTurn := st.createdAtTurn
                        expiresAtTurn := st.expiresAtTurn
                        bindingAttempts := st.bindingAttempts + 1
                        isBound := true }, ?_, ?_, ?_⟩
              · rw [g1, hpid]
                exact JsMap.get?_set_self _ _ _
              · rw [hst0]
              · rw [hst0]
            · exact a6 st0 h1
          · intro hok hokm
            have hokid := (hok (id, st) (List.mem_cons_self _ _)).2
            have hok2 : ∀ kv ∈ rest, EntryOk g.graphNodes kv := by
              intro kv h
              have h2 := hok kv (List.mem_cons_of_mem _ h)
              exact ⟨h2.1, by rw [hgnodes]; exact h2.2⟩
            have hokm2 :
                ∀ kv ∈ (m.activePremonitions.set id
                  { premonition := st.premonition
                    createdAtTurn := st.createdAtTurn
                    expiresAtTurn := st.expiresAtTurn
                    bindingAttempts := st.bindingAttempts + 1
                    isBound := st.isBound }).set id
                  { premonition := st.premonition
                    createdAtTurn := st.createdAtTurn
                    expiresAtTurn := st.expiresAtTurn
                    bindingAttempts := st.bindingAttempts + 1
                    isBound := true }, EntryOk g.graphNodes kv := by
              intro kv h
              rcases JsMap.mem_set_elim _ _ _ _ h with h1 | h1
              · rcases JsMap.mem_set_elim _ _ _ _ h1 with h2 | h2
                · have h3 := hokm kv h2
                  exact ⟨h3.1, by rw [hgnodes]; exact h3.2⟩
                · rw [h2]
                  exact ⟨hid, by rw [hgnodes]; exact hokid⟩
              · rw [h1]
                exact ⟨hid, by rw [hgnodes]; exact hokid⟩
            obtain ⟨b1, b2⟩ := a7 hok2 hokm2
            refine ⟨?_, ?_⟩
            · intro kv h
              have h2 := b1 kv h
              exact ⟨h2.1, by rw [← hgnodes]; exact h2.2⟩
            · intro hf
              exact b2 (by rw [hgnodes]; exact hf)
        · -- the edge insertion threw: the pass aborts here
          have hloop :
              processLoop f now ((id, st) :: rest) m =
                ({ memoryGraph := g
                   activePremonitions :=
                     m.activePremonitions.set id
                       { premonition := st.premonition
                         createdAtTurn := st.createdAtTurn
                         expiresAtTurn := st.expiresAtTurn
                         bindingAttempts := st.bindingAttempts + 1
                         isBound := st.isBound }
                   turnCounter := m.turnCounter
                   events := m.events }, some err) := by
            simp only [processLoop]
            rw [if_neg hskip, if_pos hth, hadd]
          rw [hloop]
          have hgm : g = m.memoryGraph :=
            MemoryGraphStore.addEdge_error_unchanged _ _ _ _ hadd
          refine ⟨rfl, by rw [hgm], hkeys1, rfl, ?_, ?_, ?_⟩
          · intro hall
            by_cases hpid : pid = id
            · exact absurd
                (hall st (by rw [hpid]; exact List.mem_cons_self _ _)) hskip
            · exact ⟨JsMap.get?_set_ne _ _ _ _ (fun he => hpid he.symm), rfl⟩
          · intro st0 h0
            rcases List.mem_cons.mp h0 with h1 | h1
            · have hpid : pid = id := congrArg Prod.fst h1
              have hst0 : st0 = st := congrArg Prod.snd h1
              refine ⟨{ premonition := st.premonition
                        createdAtTurn := st.createdAtTurn
                        expiresAtTurn := st.expiresAtTurn
                        bindingAttempts := st.bindingAttempts + 1
                        isBound := st.isBound }, ?_, ?_, ?_⟩
              · rw [hpid]
                exact JsMap.get?_set_self _ _ _
              · rw [hst0]
              · rw [hst0]
            · have hne : id ≠ pid := fun he =>
                hnodup1 (he ▸ List.mem_map.mpr ⟨(pid, st0), h1, rfl⟩)
              refine ⟨st0, ?_, rfl, rfl⟩
              rw [JsMap.get?_set_ne _ _ _ _ hne]
              exact hsnapr (pid, st0) h1
          · intro hok hokm
            refine ⟨?_, ?_⟩
            · intro kv h
              rcases JsMap.mem_set_elim _ _ _ _ h with h1 | h1
              · exact hokm kv h1
              · rw [h1]
                exact ⟨hid, (hok (id, st) (List.mem_cons_self _ _)).2⟩
            · intro hf
              exfalso
              have hsrc :
                  m.memoryGraph.hasNode
                    (bindPremonitionEdge st.premonition f now).source =
                    true := by
                simp only [bindPremonitionEdge, MemoryGraphStore.hasNode]
                simp only [decide_eq_true_eq]
                exact (hok (id, st) (List.mem_cons_self _ _)).2
              have htgt :
                  m.memoryGraph.hasNode
                    (bindPremonitionEdge st.premonition f now).target =
                    true := by
                simp only [bindPremonitionEdge, MemoryGraphStore.hasNode]
                simp only [decide_eq_true_eq]
                exact hf
              have hok3 :=
                MemoryGraphStore.addEdge_ok
                  (bindPremonitionEdge st.premonition f now) m.memoryGraph
                  hsrc htgt
              rw [hadd] at hok3
              injection hok3 with h1 h2
              exact Option.noConfusion h2

/-- What one cleanup pass does to the entry for `pid` and to the counters,
on a state with duplicate-free keys. -/
theorem cleanup_facts (pid : String) (m : PremonitionMatcher)
    (hnd : m.activePremonitions.keys.Nodup) :
    (cleanupExpiredPremonitions m).turnCounter = m.turnCounter ∧
    (cleanupExpiredPremonitions m).memoryGraph = m.memoryGraph ∧
    (cleanupExpiredPremonitions m).activePremonitions.keys.Nodup ∧
    bindCount pid (cleanupExpiredPremonitions m) = bindCount pid m ∧
    (m.activePremonitions.get? pid = none →
      (cleanupExpiredPremonitions m).activePremonitions.get? pid = none ∧
      expiryCount pid (cleanupExpiredPremonitions m) = expiryCount pid m) ∧
    (∀ st, m.activePremonitions.get? pid = some st →
      (m.turnCounter > st.expiresAtTurn →
        (cleanupExpiredPremonitions m).activePremonitions.get? pid = none ∧
        expiryCount pid (cleanupExpiredPremonitions m) =
          expiryCount pid m + 1) ∧
      (¬ m.turnCounter > st.expiresAtTurn →
        (cleanupExpiredPremonitions m).activePremonitions.get? pid =
          some st ∧
        expiryCount pid (cleanupExpiredPremonitions m) = expiryCount pid m)) ∧
    (∀ kv ∈ (cleanupExpiredPremonitions m).activePremonitions,
      kv ∈ m.activePremonitions) := by
  have hexpCount :
      expiryCount pid (cleanupExpiredPremonitions m) =
        expiryCount pid m +
          List.countP (fun kv => decide (kv.1 = pid))
            (m.activePremonitions.filter
              (fun kv => m.turnCounter > kv.2.expiresAtTurn)) := by
    show List.countP (isExpiryFor pid)
        (m.events ++
          (m.activePremonitions.filter
            (fun kv => m.turnCounter > kv.2.expiresAtTurn)).map
            (fun kv => MatcherEvent.premonitionExpired kv.1)) = _
    rw [List.countP_append, List.countP_map]
    rfl
  have hndexp :
      (JsMap.keys (m.activePremonitions.filter
        (fun kv => decide (m.turnCounter > kv.2.expiresAtTurn)))).Nodup :=
    List.Nodup.sublist
      (JsMap.keys_filter_sublist m.activePremonitions _) hnd
  refine ⟨rfl, rfl, ?_, ?_, ?_, ?_, ?_⟩
  · exact List.Nodup.sublist
      (JsMap.keys_filter_sublist m.activePremonitions _) hnd
  · show List.countP (isBindingFor pid)
        (m.events ++
          (m.activePremonitions.filter
            (fun kv => m.turnCounter > kv.2.expiresAtTurn)).map
            (fun kv => MatcherEvent.premonitionExpired kv.1)) = _
    rw [List.countP_append, List.countP_map]
    have hz : List.countP
        ((isBindingFor pid) ∘
          (fun kv : String × PremonitionState =>
            MatcherEvent.premonitionExpired kv.1))
        (m.activePremonitions.filter
          (fun kv => m.turnCounter > kv.2.expiresAtTurn)) = 0 := by
      rw [List.countP_eq_zero]
      intro a _
      simp [isBindingFor, Function.comp]
    rw [hz]
    rfl
  · intro h0
    have hkeep :
        JsMap.get? (m.activePremonitions.filter
          (fun kv => decide (¬ m.turnCounter > kv.2.expiresAtTurn))) pid =
          none :=
      JsMap.get?_filter_of_none m.activePremonitions _ pid h0
    have hexp0 :
        JsMap.get? (m.activePremonitions.filter
          (fun kv => decide (m.turnCounter > kv.2.expiresAtTurn))) pid =
          none :=
      JsMap.get?_filter_of_none m.activePremonitions _ pid h0
    refine ⟨hkeep, ?_⟩
    rw [hexpCount, JsMap.countP_fst_eq _ pid hndexp,
      if_neg (fun hmm => by
        have h2 := JsMap.mem_keys_isSome _ pid hmm
        rw [hexp0] at h2
        exact Bool.noConfusion h2)]
    rfl
  · intro st h0
    constructor
    · intro hgt
      have hkeep :
          JsMap.get? (m.activePremonitions.filter
            (fun kv => decide (¬ m.turnCounter > kv.2.expiresAtTurn))) pid =
            none := by
        rw [JsMap.get?_filter_of_some m.activePremonitions _ pid st hnd h0,
          if_neg (by simp [hgt])]
      have hexp1 :
          JsMap.get? (m.activePremonitions.filter
            (fun kv => decide (m.turnCounter > kv.2.expiresAtTurn))) pid =
            some st := by
        rw [JsMap.get?_filter_of_some m.activePremonitions _ pid st hnd h0,
          if_pos (by simp [hgt])]
      refine ⟨hkeep, ?_⟩
      rw [hexpCount, JsMap.countP_fst_eq _ pid hndexp,
        if_pos (JsMap.mem_keys_of_get?_eq_some _ pid st hexp1)]
    · intro hle
      have hkeep :
          JsMap.get? (m.activePremonitions.filter
            (fun kv => decide (¬ m.turnCounter > kv.2.expiresAtTurn))) pid =
            some st := by
        rw [JsMap.get?_filter_of_some m.activePremonitions _ pid st hnd h0,
          if_pos (by simp [hle])]
      have hexp0 :
          JsMap.get? (m.activePremonitions.filter
            (fun kv => decide (m.turnCounter > kv.2.expiresAtTurn))) pid =
            none := by
        rw [JsMap.get?_filter_of_some m.activePremonitions _ pid st hnd h0,
          if_neg (by simp [hle])]
      refine ⟨hkeep, ?_⟩
      rw [hexpCount, JsMap.countP_fst_eq _ pid hndexp,
        if_neg (fun hmm => by
          have h2 := JsMap.mem_keys_isSome _ pid hmm
          rw [hexp0] at h2
          exact Bool.noConfusion h2)]
      rfl
  · intro kv h
    exact List.mem_of_mem_filter h

/-- What one full `processFracture` call does to the entry for `pid`, on a
well-formed state whose graph holds the stimulus node: the call cannot
throw, well-formedness is preserved, the turn advances by one, and the
`pid` entry survives (premonition and expiry turn intact) exactly while
the new turn counter has not passed its expiry turn — crossing it drops
the entry, emits exactly one expiry notification, and emits no binding
notification for it. -/
theorem processFracture_facts (f : FractureEvent) (now : Nat) (pid : String)
    (m : PremonitionMatcher) (hgood : GoodState m)
    (hf : f.id ∈ m.memoryGraph.graphNodes) :
    (processFracture f now m).2 = none ∧
    GoodState (processFracture f now m).1 ∧
    (processFracture f now m).1.turnCounter = m.turnCounter + 1 ∧
    (m.activePremonitions.get? pid = none →
      (processFracture f now m).1.activePremonitions.get? pid = none ∧
      expiryCount pid (processFracture f now m).1 = expiryCount pid m ∧
      bindCount pid (processFracture f now m).1 = bindCount pid m) ∧
    (∀ st, m.activePremonitions.get? pid = some st →
      (m.turnCounter + 1 ≤ st.expiresAtTurn →
        (∃ st',
          (processFracture f now m).1.activePremonitions.get? pid =
            some st' ∧
          st'.premonition = st.premonition ∧
          st'.expiresAtTurn = st.expiresAtTurn) ∧
        expiryCount pid (processFracture f now m).1 = expiryCount pid m) ∧
      (m.turnCounter + 1 > st.expiresAtTurn →
        (processFracture f now m).1.activePremonitions.get? pid = none ∧
        expiryCount pid (processFracture f now m).1 =
          expiryCount pid m + 1 ∧
        bindCount pid (processFracture f now m).1 = bindCount pid m)) := by
  have hnd : m.activePremonitions.keys.Nodup := hgood.1
  have hok : ∀ kv ∈ m.activePremonitions,
      EntryOk m.memoryGraph.graphNodes kv := hgood.2
  have hperm :
      (m.activePremonitions.mergeSort
        (fun a b =>
          calculateBindingStrength b.2.premonition.bindingCriteria ≤
            calculateBindingStrength a.2.premonition.bindingCriteria)).Perm
        m.activePremonitions :=
    List.mergeSort_perm m.activePremonitions _
  have hids : ∀ kv ∈ m.activePremonitions.mergeSort
      (fun a b =>
        calculateBindingStrength b.2.premonition.bindingCriteria ≤
          calculateBindingStrength a.2.premonition.bindingCriteria),
      kv.1 = kv.2.premonition.id :=
    fun kv h => (hok kv (hperm.mem_iff.mp h)).1
  have hsnap : ∀ kv ∈ m.activePremonitions.mergeSort
      (fun a b =>
        calculateBindingStrength b.2.premonition.bindingCriteria ≤
          calculateBindingStrength a.2.premonition.bindingCriteria),
      m.activePremonitions.get? kv.1 = some kv.2 :=
    fun kv h =>
      JsMap.get?_of_mem_nodup m.activePremonitions kv hnd
        (hperm.mem_iff.mp h)
  have hnodupS : ((m.activePremonitions.mergeSort
      (fun a b =>
        calculateBindingStrength b.2.premonition.bindingCriteria ≤
          calculateBindingStrength a.2.premonition.bindingCriteria)).map
        Prod.fst).Nodup :=
    ((hperm.map Prod.fst).nodup_iff).mpr hnd
  obtain ⟨a1, a2, a3, a4, a5, a6, a7⟩ :=
    processLoop_facts f now pid
      (m.activePremonitions.mergeSort
        (fun a b =>
          calculateBindingStrength b.2.premonition.bindingCriteria ≤
            calculateBindingStrength a.2.premonition.bindingCriteria))
      { m with turnCounter := m.turnCounter + 1 }
      hids (fun kv h => List.mem_map.mpr ⟨kv, hperm.mem_iff.mp h, rfl⟩)
      hnodupS hsnap
  obtain ⟨b1, b2⟩ :=
    a7 (fun kv h => hok kv (hperm.mem_iff.mp h)) (fun kv h => hok kv h)
  rcases hres :
    processLoop f now
      (m.activePremonitions.mergeSort
        (fun a b =>
          calculateBindingStrength b.2.premonition.bindingCriteria ≤
            calculateBindingStrength a.2.premonition.bindingCriteria))
      { m with turnCounter := m.turnCounter + 1 } with ⟨mL, errL⟩
  rw [hres] at a1 a2 a3 a4 a5 a6 b1 b2
  have herr : errL = none := b2 hf
  subst herr
  have heq : processFracture f now m = (cleanupExpiredPremonitions mL, none) := by
    simp only [processFracture]
    rw [hres]
  have a1' : mL.turnCounter = m.turnCounter + 1 := a1
  have a4' : expiryCount pid mL = expiryCount pid m := a4
  have hndL : mL.activePremonitions.keys.Nodup := by
    rw [a3]
    exact hnd
  obtain ⟨c1, c2, c3, c4, c5, c6, c7⟩ := cleanup_facts pid mL hndL
  refine ⟨by rw [heq], ?_, ?_, ?_, ?_⟩
  · -- well-formedness of the final state
    rw [heq]
    refine ⟨c3, ?_⟩
    intro kv h
    have h2 := b1 kv (c7 kv h)
    refine ⟨h2.1, ?_⟩
    rw [c2, a2]
    exact h2.2
  · rw [heq]
    exact c1.trans a1'
  · -- no entry for pid: nothing changes for it
    intro h0
    have hvac : ∀ st2 : PremonitionState,
        (pid, st2) ∈ m.activePremonitions.mergeSort
          (fun a b =>
            calculateBindingStrength b.2.premonition.bindingCriteria ≤
              calculateBindingStrength a.2.premonition.bindingCriteria) →
        st2.isBound = true ∨
          ({ m with turnCounter := m.turnCounter + 1 } :
            PremonitionMatcher).turnCounter > st2.expiresAtTurn := by
      intro st2 h2
      have h3 :=
        JsMap.get?_of_mem_nodup m.activePremonitions (pid, st2) hnd
          (hperm.mem_iff.mp h2)
      rw [h0] at h3
      exact Option.noConfusion h3
    obtain ⟨g1, g2⟩ := a5 hvac
    have hL0 : mL.activePremonitions.get? pid = none := g1.trans h0
    have g2' : bindCount pid mL = bindCount pid m := g2
    refine ⟨by rw [heq]; exact (c5 hL0).1,
      by rw [heq]; exact ((c5 hL0).2).trans a4',
      by rw [heq]; exact c4.trans g2'⟩
  · -- an entry for pid: its fate is decided by the new turn counter
    intro st h0
    have hmemS : (pid, st) ∈ m.activePremonitions.mergeSort
        (fun a b =>
          calculateBindingStrength b.2.premonition.bindingCriteria ≤
            calculateBindingStrength a.2.premonition.bindingCriteria) :=
      hperm.mem_iff.mpr (JsMap.mem_of_get?_eq_some m.activePremonitions pid st h0)
    constructor
    · intro hle
      obtain ⟨st', hget', hprem', hexp'⟩ := a6 st hmemS
      have hnotgt : ¬ mL.turnCounter > st'.expiresAtTurn := by
        rw [a1', hexp']
        exact not_lt.mpr hle
      obtain ⟨hkeep, hexpeq⟩ := (c6 st' hget').2 hnotgt
      exact ⟨⟨st', by rw [heq]; exact hkeep, hprem', hexp'⟩,
        by rw [heq]; exact hexpeq.trans a4'⟩
    · intro hgt
      have hvac : ∀ st2 : PremonitionState,
          (pid, st2) ∈ m.activePremonitions.mergeSort
            (fun a b =>
              calculateBindingStrength b.2.premonition.bindingCriteria ≤
                calculateBindingStrength a.2.premonition.bindingCriteria) →
          st2.isBound = true ∨
            ({ m with turnCounter := m.turnCounter + 1 } :
              PremonitionMatcher).turnCounter > st2.expiresAtTurn := by
        intro st2 h2
        have h3 :=
          JsMap.get?_of_mem_nodup m.activePremonitions (pid, st2) hnd
            (hperm.mem_iff.mp h2)
        rw [h0] at h3
        injection h3 with h4
        subst h4
        exact Or.inr hgt
      obtain ⟨g1, g2⟩ := a5 hvac
      have hL : mL.activePremonitions.get? pid = some st := g1.trans h0
      have g2' : bindCount pid mL = bindCount pid m := g2
      have hgtL : mL.turnCounter > st.expiresAtTurn := by
        rw [a1']
        exact hgt
      obtain ⟨hnone, hplus⟩ := (c6 st hL).1 hgtL
      refine ⟨by rw [heq]; exact hnone, ?_, by rw [heq]; exact c4.trans g2'⟩
      rw [heq]
      show expiryCount pid (cleanupExpiredPremonitions mL) = _
      rw [hplus, a4']

/-- What registering an echo does: the node is stored first, a fresh
pending record opens at the current turn; other entries, the counter and
the event log are untouched; well-formedness is preserved. -/
theorem addPremonition_facts (p : Premonition) (m : PremonitionMatcher)
    (hgood : GoodState m) :
    GoodState (addPremonition p m) ∧
    (addPremonition p m).turnCounter = m.turnCounter ∧
    (addPremonition p m).events = m.events ∧
    (addPremonition p m).activePremonitions.get? p.id =
      some { premonition := p, createdAtTurn := m.turnCounter
             expiresAtTurn := m.turnCounter + p.validityWindow
             bindingAttempts := 0, isBound := false } ∧
    (∀ k, k ≠ p.id →
      (addPremonition p m).activePremonitions.get? k =
        m.activePremonitions.get? k) := by
  refine ⟨⟨?_, ?_⟩, rfl, rfl, ?_, ?_⟩
  · exact JsMap.nodup_keys_set m.activePremonitions p.id _ hgood.1
  · intro kv h
    rcases JsMap.mem_set_elim _ _ _ _ h with h1 | h1
    · have h2 := hgood.2 kv h1
      exact ⟨h2.1, MemoryGraphStore.addNode_mem_mono _ _ _ h2.2⟩
    · rw [h1]
      exact ⟨rfl, MemoryGraphStore.addNode_mem_self _ _⟩
  · exact JsMap.get?_set_self _ _ _
  · intro k hk
    exact JsMap.get?_set_ne _ _ _ _ (fun he => hk he.symm)

/-- The lifecycle invariant along any evolution after the echo is
registered: the state stays well-formed, the pending entry (its
premonition and its expiry turn intact) exists exactly while the counter
has not passed `T + W`, and the expiry notification has fired exactly
once as soon as it has. -/
theorem reach_facts (p : Premonition) (s0 : PremonitionMatcher)
    (hgood0 : GoodState s0) (s : PremonitionMatcher)
    (hreach :
      Relation.ReflTransGen (StepFrom p.id) (addPremonition p s0) s) :
    GoodState s ∧
    ((s.activePremonitions.get? p.id).isSome = true ↔
      s.turnCounter ≤ s0.turnCounter + p.validityWindow) ∧
    (∀ st, s.activePremonitions.get? p.id = some st →
      st.premonition = p ∧
      st.expiresAtTurn = s0.turnCounter + p.validityWindow) ∧
    expiryCount p.id s =
      expiryCount p.id s0 +
        (if s0.turnCounter + p.validityWindow < s.turnCounter then 1
         else 0) := by
  induction hreach with
  | refl =>
    obtain ⟨hg, htc, hev, hget, hother⟩ := addPremonition_facts p s0 hgood0
    refine ⟨hg, ?_, ?_, ?_⟩
    · rw [hget, htc]
      simp [Nat.le_add_right]
    · intro st h
      rw [hget] at h
      injection h with h1
      subst h1
      exact ⟨rfl, rfl⟩
    · have hexp :
          expiryCount p.id (addPremonition p s0) = expiryCount p.id s0 := by
        unfold expiryCount
        rw [hev]
      rw [hexp, htc, if_neg (Nat.not_lt.mpr (Nat.le_add_right _ _))]
      rfl
  | @tail b c hab hstep ih =>
    obtain ⟨ihg, ihiff, ihentry, ihexp⟩ := ih
    cases hstep with
    | add q b h =>
      obtain ⟨hg, htc, hev, hget, hother⟩ := addPremonition_facts q b ihg
      have hsame : (addPremonition q b).activePremonitions.get? p.id =
          b.activePremonitions.get? p.id :=
        hother p.id (fun he => h he.symm)
      refine ⟨hg, ?_, ?_, ?_⟩
      · rw [hsame, htc]
        exact ihiff
      · intro st hst
        rw [hsame] at hst
        exact ihentry st hst
      · have hexp :
            expiryCount p.id (addPremonition q b) = expiryCount p.id b := by
          unfold expiryCount
          rw [hev]
        rw [hexp, htc]
        exact ihexp
    | proc f now b hnode =>
      have hf2 : f.id ∈ b.memoryGraph.graphNodes := by
        simpa [MemoryGraphStore.hasNode] using hnode
      obtain ⟨pe, pg, ptc, pnone, psome⟩ :=
        processFracture_facts f now p.id b ihg hf2
      rcases hcase : b.activePremonitions.get? p.id with _ | st
      · -- the echo was already dropped, so its turn had already passed
        rw [hcase] at ihiff
        simp only [Option.isSome_none, Bool.false_eq_true, false_iff,
          Nat.not_le] at ihiff
        obtain ⟨qnone, qexp, qbind⟩ := pnone hcase
        refine ⟨pg, ?_, ?_, ?_⟩
        · rw [qnone, ptc]
          simp only [Option.isSome_none, Bool.false_eq_true, false_iff,
            Nat.not_le]
          omega
        · intro st2 hst2
          rw [qnone] at hst2
          exact Option.noConfusion hst2
        · rw [qexp, ihexp, ptc, if_pos ihiff, if_pos (by omega)]
      · -- the echo is pending, so the old counter is within the window
        have htcle : b.turnCounter ≤ s0.turnCounter + p.validityWindow :=
          ihiff.mp (by rw [hcase]; rfl)
        obtain ⟨hstp, hstE⟩ := ihentry st hcase
        by_cases hle :
          b.turnCounter + 1 ≤ s0.turnCounter + p.validityWindow
        · obtain ⟨⟨st2, hget2, hp2, hE2⟩, hexp2⟩ :=
            (psome st hcase).1 (by rw [hstE]; exact hle)
          refine ⟨pg, ?_, ?_, ?_⟩
          · rw [hget2, ptc]
            exact ⟨fun _ => hle, fun _ => rfl⟩
          · intro st3 hst3
            rw [hget2] at hst3
            injection hst3 with h3
            subst h3
            exact ⟨hp2.trans hstp, hE2.trans hstE⟩
          · rw [hexp2, ihexp, ptc, if_neg (by omega), if_neg (by omega)]
        · obtain ⟨qnone, qexp, qbind⟩ :=
            (psome st hcase).2 (by rw [hstE]; omega)
          refine ⟨pg, ?_, ?_, ?_⟩
          · rw [qnone, ptc]
            simp only [Option.isSome_none, Bool.false_eq_true, false_iff,
              Nat.not_le]
            omega
          · intro st2 hst2
            rw [qnone] at hst2
            exact Option.noConfusion hst2
          · rw [qexp, ihexp, ptc, if_neg (by omega), if_pos (by omega)]

end PremonitionMatcher

/-! ### Echo lifecycle over a run (C5) -/

/-- C5 (confirmed).  For an echo `p` registered on a well-formed matcher
whose turn counter reads `T = s0.turnCounter`, with `W = p.validityWindow`:
in every state reachable by registering other echoes and processing
stimuli (each stimulus node being stored in the graph before matching, as
the pipeline's `introduceFracture` does), the echo is pending exactly
while the turn counter is at most `T + W`; the expiry notification for it
has been emitted exactly once as soon as the counter exceeds `T + W` —
dropped during the first `processFracture` whose incremented counter
passes it — and never before; and a `processFracture` call entered at a
turn greater than `T + W` emits no binding notification for the echo. -/
theorem echo_expiry_window (p : Premonition) (s0 : PremonitionMatcher)
    (hgood0 : PremonitionMatcher.GoodState s0) (s : PremonitionMatcher)
    (hreach :
      Relation.ReflTransGen (PremonitionMatcher.StepFrom p.id)
        (PremonitionMatcher.addPremonition p s0) s) :
    ((s.activePremonitions.get? p.id).isSome = true ↔
      s.turnCounter ≤ s0.turnCounter + p.validityWindow) ∧
    PremonitionMatcher.expiryCount p.id s =
      PremonitionMatcher.expiryCount p.id s0 +
        (if s0.turnCounter + p.validityWindow < s.turnCounter then 1
         else 0) ∧
    (∀ s', PremonitionMatcher.StepFrom p.id s s' →
      s0.turnCounter + p.validityWindow < s'.turnCounter →
      PremonitionMatcher.bindCount p.id s' =
        PremonitionMatcher.bindCount p.id s) := by
  obtain ⟨hg, hiff, hentry, hexp⟩ :=
    PremonitionMatcher.reach_facts p s0 hgood0 s hreach
  refine ⟨hiff, hexp, ?_⟩
  intro s' hstep hlt
  cases hstep with
  | add q s h => rfl
  | proc f now s hnode =>
    have hf2 : f.id ∈ s.memoryGraph.graphNodes := by
      simpa [MemoryGraphStore.hasNode] using hnode
    obtain ⟨pe, pg, ptc, pnone, psome⟩ :=
      PremonitionMatcher.processFracture_facts f now p.id s hg hf2
    rcases hcase : s.activePremonitions.get? p.id with _ | st
    · exact (pnone hcase).2.2
    · obtain ⟨hstp, hstE⟩ := hentry st hcase
      have hgt : s.turnCounter + 1 > st.expiresAtTurn := by
        rw [hstE]
        rw [ptc] at hlt
        omega
      exact ((psome st hcase).2 hgt).2.2

/-- Witness for C5 at Scenario A's echo over its base state (window 3,
registered at turn 0), taken at the registration state itself. -/
theorem echo_expiry_window_witness :
    (((PremonitionMatcher.addPremonition scenarioAEcho
          scenarioABase).activePremonitions.get?
        scenarioAEcho.id).isSome = true ↔
      (PremonitionMatcher.addPremonition scenarioAEcho
          scenarioABase).turnCounter ≤
        scenarioABase.turnCounter + scenarioAEcho.validityWindow) ∧
    PremonitionMatcher.expiryCount scenarioAEcho.id
        (PremonitionMatcher.addPremonition scenarioAEcho scenarioABase) =
      PremonitionMatcher.expiryCount scenarioAEcho.id scenarioABase +
        (if scenarioABase.turnCounter + scenarioAEcho.validityWindow <
            (PremonitionMatcher.addPremonition scenarioAEcho
              scenarioABase).turnCounter
         then 1 else 0) ∧
    (∀ s', PremonitionMatcher.StepFrom scenarioAEcho.id
        (PremonitionMatcher.addPremonition scenarioAEcho scenarioABase)
        s' →
      scenarioABase.turnCounter + scenarioAEcho.validityWindow <
        s'.turnCounter →
      PremonitionMatcher.bindCount scenarioAEcho.id s' =
        PremonitionMatcher.bindCount scenarioAEcho.id
          (PremonitionMatcher.addPremonition scenarioAEcho
            scenarioABase)) :=
  echo_expiry_window scenarioAEcho scenarioABase
    ⟨List.nodup_nil, fun kv h => absurd h (List.not_mem_nil kv)⟩
    _ Relation.ReflTransGen.refl

/-! ### Fork aliasing and stability (C3, C4) -/

/-- C3 at the failing input (code_bug): forking `elena` succeeds, and
applying `applyMutation` to the *forked* actor rewrites the shared
`variations` record in place, changing the *original* actor's tone
distribution from `joy 1/5, sadness 4/5` to `joy 1/4, sadness 3/4` — the
two profiles share mutable state through the fork's field-level copy. -/
theorem fork_shares_variations :
    c3Fork.2 = none ∧
    CharacterKernel.viewVariations c3Fork.1 "elena" =
      some [("joy", 1/5), ("sadness", 4/5)] ∧
    CharacterKernel.viewVariations c3Mut "elena" =
      some [("joy", 1/4), ("sadness", 3/4)] ∧
    ¬ ([("joy", (1 : ℚ)/4), ("sadness", (3 : ℚ)/4)] =
        [("joy", (1 : ℚ)/5), ("sadness", (4 : ℚ)/5)]) := by
  refine ⟨rfl, rfl, ?_, ?_⟩
  · norm_num [c3Mut, CharacterKernel.applyMutation,
      CharacterKernel.driftVariations, CharacterKernel.getCharacter,
      CharacterKernel.viewVariations, CharacterKernel.viewToneProfile,
      JsMap.get?, JsMap.set, JsMap.keys, List.filter, List.map, c3Fork,
      CharacterKernel.forkCharacter, c3Kernel, MemoryGraphStore.addMemory,
      MemoryGraphStore.addNode, MemoryGraphStore.createEmotionalLink,
      MemoryGraphStore.createDivergence, MemoryGraphStore.addEdge,
      MemoryGraphStore.hasNode, wStore, wNodeA, wNodeB,
      MemoryGraphStore.empty, mkUuid, defaultConfig, c3Fold, min_def]
    have h1 : ("joy" = "sadness") = False := by simp
    have h2 : decide ("sadness" = "joy") = false := by decide
    simp only [h1, h2, if_false, Bool.not_false, List.foldl, JsMap.set,
      JsMap.get?, Option.getD]
    norm_num
  · intro h
    have h2 : (1/4 : ℚ) = 1/5 := congrArg (fun l => (l.headD ("", 0)).2) h
    norm_num at h2

/-- C4 at the failing input (code_bug): `elena`'s recorded stability is
0.7 before the mutation and still 0.7 after it — not the claimed
`min 1 (0.7 + 0.1) = 0.8` — because `stability ?? 0.5 + 0.1` parses as
`stability ?? 0.6`, so the `+ 0.1` never reaches an existing value. -/
theorem applyMutation_keeps_stability :
    (CharacterKernel.getEmotionalState c3Kernel "elena").map
      (fun s => s.stability) = some (7/10) ∧
    (CharacterKernel.getEmotionalState c4Mut "elena").map
      (fun s => s.stability) = some (7/10) ∧
    ¬ ((7/10 : ℚ) = min 1 (7/10 + 1/10)) := by
  refine ⟨rfl, ?_, ?_⟩
  · norm_num [c4Mut, CharacterKernel.applyMutation,
      CharacterKernel.driftVariations, CharacterKernel.getCharacter,
      CharacterKernel.getEmotionalState, JsMap.get?, JsMap.set, JsMap.keys,
      List.filter, List.map, c3Kernel, defaultConfig, c3Fold, min_def]
  · rw [min_def]
    norm_num

/-- C8.  An actor whose tone distribution sums to 1 (with duplicate-free,
non-negative weights and a non-negative drift rate), hit by 5 consecutive
`applyMutation` calls whose reactions share one dominant emotion present
in the distribution (with non-negative intensities): after each of the 5
calls the distribution the actor observes still sums to exactly 1 —
`applyMutation` preserves the unit-sum invariant. -/
theorem toneDistribution_unit_sum_invariant (k : CharacterKernel)
    (cid : String) (c : CharacterField) (schema : MutationSchema)
    (tone : ToneObj) (vars : JsMap String ℚ) (d : String)
    (hc : k.characters.get? cid = some c)
    (hs : k.heapSchemas.get? c.mutationSchema = some schema)
    (ht : k.heapTones.get? c.toneProfile = some tone)
    (hv : k.heapVars.get? tone.variationsRef = some vars)
    (hnd : vars.keys.Nodup) (hsum : JsMap.sumVals vars = 1)
    (hnn : ∀ kv ∈ vars, 0 ≤ kv.2) (hdrift : 0 ≤ schema.driftRate)
    (folds : List RecursionFold) (hlen : folds.length = 5)
    (hfolds : ∀ f ∈ folds,
      f.emotionalState.dominant = d ∧ 0 ≤ f.emotionalState.intensity)
    (hd : d ∈ vars.keys) :
    ∀ n, n ≤ 5 → ∃ vars',
      CharacterKernel.viewVariations
          (CharacterKernel.mutateAll cid (folds.take n) k) cid =
        some vars' ∧
      JsMap.sumVals vars' = 1 := by
  intro n _
  obtain ⟨c', tone', vars', _, _, _, _, _, _, hsum', _, hview⟩ :=
    mutateAll_sum_invariant (folds.take n) k cid c schema tone vars hc hs
      ht hv hnd hsum hnn hdrift
      (fun f hf => (hfolds f (List.take_subset n folds hf)).2)
  exact ⟨vars', hview, hsum'⟩

/-- Witness for C8: the actor `elena` of `c3Kernel` (distribution
`joy 0.2 / sadness 0.8`) mutated 5 times by `c3Fold` (dominant `joy`,
intensity 1) still observes a distribution summing to 1. -/
theorem toneDistribution_unit_sum_invariant_witness :
    ∃ vars',
      CharacterKernel.viewVariations
          (CharacterKernel.mutateAll "elena"
            ((List.replicate 5 c3Fold).take 5) c3Kernel) "elena" =
        some vars' ∧
      JsMap.sumVals vars' = 1 := by
  refine
    toneDistribution_unit_sum_invariant c3Kernel "elena" _ _ _
      [("joy", 1/5), ("sadness", 4/5)] "joy" rfl rfl rfl rfl (by decide)
      (by norm_num [JsMap.sumVals]) ?_ (by norm_num)
      (List.replicate 5 c3Fold) (by simp) ?_ (by decide) 5 (by norm_num)
  · intro kv hkv
    rcases List.mem_cons.mp hkv with h1 | h1
    · rw [h1]
      norm_num
    · rcases List.mem_cons.mp h1 with h2 | h2
      · rw [h2]
        norm_num
      · simp at h2
  · intro f hf
    rw [List.eq_of_mem_replicate hf]
    exact ⟨rfl, by norm_num [c3Fold]⟩

/-! ### Scenario A (C2) -/

/-- A one-entry matching pass that stays below threshold only increments
the binding attempt counter. -/
theorem processLoop_singleton_nobind (f : FractureEvent) (now : Nat)
    (id : String) (st : PremonitionState) (m : PremonitionMatcher)
    (hb : st.isBound = false) (hexp : m.turnCounter ≤ st.expiresAtTurn)
    (hth :
      ¬ (PremonitionMatcher.getBindingThreshold
            { st with bindingAttempts := st.bindingAttempts + 1 }
            m.turnCounter ≤
          PremonitionMatcher.calculateMatchScore st.premonition f)) :
    PremonitionMatcher.processLoop f now [(id, st)] m =
      ({ m with
         activePremonitions :=
           m.activePremonitions.set id
             { st with bindingAttempts := st.bindingAttempts + 1 } },
       none) := by
  unfold PremonitionMatcher.processLoop
  rw [if_neg (by simp [hb]; omega)]
  simp only
  rw [if_neg hth]
  rfl

theorem scenarioA_simCounts :
    simCounts "you're about to ask about her" "What happened to Elena?" =
      (1, 8) := by decide

theorem scenarioA_keywordCount :
    keywordMatchCount ["elena", "her"] "What happened to Elena?" = 1 := by
  decide

/-- The Scenario A match score: Jaccard 1/8 weighted 0.6, plus the fixed
0.5 emotional placeholder weighted 0.5, plus keyword ratio 1/2 weighted
0.3 — 19/40 = 0.475. -/
theorem scenarioA_score :
    PremonitionMatcher.calculateMatchScore scenarioAEcho scenarioAFracture =
      19/40 := by
  have h1 := scenarioA_simCounts
  have h2 := scenarioA_keywordCount
  simp only [PremonitionMatcher.calculateMatchScore,
    calculateContentSimilarity, calculateKeywordMatch, scenarioAEcho,
    scenarioAFracture, h1, h2]
  norm_num

/-- The Scenario A decayed threshold at turn 1 with one binding attempt:
0.7 − 0.05 − 1/15 = 7/12 ≈ 0.583. -/
theorem scenarioA_threshold :
    PremonitionMatcher.getBindingThreshold scenarioASt1 1 = 7/12 := by
  simp only [PremonitionMatcher.getBindingThreshold, scenarioASt1,
    scenarioAEcho, min_def, max_def]
  norm_num

/-- Counterexample to C2: on Scenario A's concrete input the match score
(19/40) is *below* the decayed binding threshold (7/12), and running
`processFracture` at turn 1 emits no binding and leaves the echo
unbound. -/
theorem scenarioA_does_not_bind :
    ¬ (PremonitionMatcher.getBindingThreshold scenarioASt1 1 ≤
        PremonitionMatcher.calculateMatchScore scenarioAEcho
          scenarioAFracture) ∧
    scenarioARun.1.events = [] ∧
    (scenarioARun.1.activePremonitions.get? "echo-A").map
      (fun st => st.isBound) = some false := by
  have hth :
      ¬ (PremonitionMatcher.getBindingThreshold scenarioASt1 1 ≤
          PremonitionMatcher.calculateMatchScore scenarioAEcho
            scenarioAFracture) := by
    rw [scenarioA_threshold, scenarioA_score]
    norm_num
  have hrun :
      scenarioARun =
        ({ memoryGraph := scenarioAMatcher.memoryGraph
           activePremonitions := [("echo-A", scenarioASt1)]
           turnCounter := 1
           events := [] }, none) := by
    have hactive :
        scenarioAMatcher.activePremonitions = [("echo-A",
          { premonition := scenarioAEcho, createdAtTurn := 0
            expiresAtTurn := 3, bindingAttempts := 0, isBound := false })] :=
      rfl
    have hturn : scenarioAMatcher.turnCounter = 0 := rfl
    unfold scenarioARun PremonitionMatcher.processFracture
    simp only [hactive, hturn, Nat.zero_add, List.mergeSort_singleton]
    rw [processLoop_singleton_nobind scenarioAFracture 7 "echo-A" _ _ rfl
        (by decide) (by exact hth)]
    simp only [hactive, JsMap.set, if_true]
    have hev : scenarioAMatcher.events = [] := rfl
    rw [hev]
    rfl
  exact ⟨hth, by rw [hrun], by rw [hrun]; rfl⟩

/-- C2 as amended: on Scenario A's input the echo's match score is
19/40 = 0.475, the decayed binding threshold at turn 1 is 7/12 ≈ 0.583,
the score falls short of the threshold, and therefore the echo does not
bind to the stimulus (the milestone simulation instead force-binds it
through `bindPremonitionToFracture`). -/
theorem scenarioA_amended :
    PremonitionMatcher.calculateMatchScore scenarioAEcho scenarioAFracture =
      19/40 ∧
    PremonitionMatcher.getBindingThreshold scenarioASt1 1 = 7/12 ∧
    PremonitionMatcher.calculateMatchScore scenarioAEcho scenarioAFracture <
      PremonitionMatcher.getBindingThreshold scenarioASt1 1 ∧
    scenarioARun.1.events = [] ∧
    (scenarioARun.1.activePremonitions.get? "echo-A").map
      (fun st => st.isBound) = some false := by
  refine ⟨scenarioA_score, scenarioA_threshold, ?_,
    scenarioA_does_not_bind.2.1, scenarioA_does_not_bind.2.2⟩
  rw [scenarioA_threshold, scenarioA_score]
  norm_num

/-- C6.  The echo binding threshold is monotonically non-increasing in
`bindingAttempts` (all else fixed), monotonically non-increasing in the
turn counter (i.e. as the elapsed share of the validity window grows and
the remaining turns shrink), and never drops below 0.3. -/
theorem getBindingThreshold_monotone (st : PremonitionState)
    (hW : 0 < st.premonition.validityWindow) :
    (∀ a1 a2 : Nat, a1 ≤ a2 → ∀ turn : Nat,
       PremonitionMatcher.getBindingThreshold
           { st with bindingAttempts := a2 } turn ≤
         PremonitionMatcher.getBindingThreshold
           { st with bindingAttempts := a1 } turn) ∧
    (∀ turn1 turn2 : Nat, turn1 ≤ turn2 →
       PremonitionMatcher.getBindingThreshold st turn2 ≤
         PremonitionMatcher.getBindingThreshold st turn1) ∧
    (∀ turn : Nat,
       (3/10 : ℚ) ≤ PremonitionMatcher.getBindingThreshold st turn) := by
  refine ⟨?_, ?_, ?_⟩
  · intro a1 a2 h turn
    unfold PremonitionMatcher.getBindingThreshold
    simp only
    apply max_le_max (le_refl _)
    have hcast : (a1 : ℚ) ≤ (a2 : ℚ) := by exact_mod_cast h
    have hmin :
        min (1/5 : ℚ) ((a1 : ℚ) * (1/20)) ≤
          min (1/5 : ℚ) ((a2 : ℚ) * (1/20)) := by
      apply min_le_min (le_refl _)
      linarith
    linarith [hmin]
  · intro turn1 turn2 h
    unfold PremonitionMatcher.getBindingThreshold
    simp only
    apply max_le_max (le_refl _)
    have hWq : (0 : ℚ) < (st.premonition.validityWindow : ℚ) := by
      exact_mod_cast hW
    have hcast : (turn1 : ℚ) ≤ (turn2 : ℚ) := by exact_mod_cast h
    have hrem :
        ((st.expiresAtTurn : ℚ) - (turn2 : ℚ)) /
            (st.premonition.validityWindow : ℚ) ≤
          ((st.expiresAtTurn : ℚ) - (turn1 : ℚ)) /
            (st.premonition.validityWindow : ℚ) := by
      exact div_le_div_of_nonneg_right (by linarith) hWq.le
    have hmin :
        min (1/5 : ℚ)
            ((1 -
                ((st.expiresAtTurn : ℚ) - (turn1 : ℚ)) /
                  (st.premonition.validityWindow : ℚ)) * (1/5)) ≤
          min (1/5 : ℚ)
            ((1 -
                ((st.expiresAtTurn : ℚ) - (turn2 : ℚ)) /
                  (st.premonition.validityWindow : ℚ)) * (1/5)) := by
      apply min_le_min (le_refl _)
      linarith
    linarith [hmin]
  · intro turn
    unfold PremonitionMatcher.getBindingThreshold
    simp only
    exact le_max_left _ _

/-- Witness for C6 at `wPremState` (validity window 3): attempts 0 ≤ 2 and
turns 1 ≤ 2 give non-increasing thresholds, and the floor holds. -/
theorem getBindingThreshold_monotone_witness :
    (PremonitionMatcher.getBindingThreshold
        { wPremState with bindingAttempts := 2 } 1 ≤
      PremonitionMatcher.getBindingThreshold
        { wPremState with bindingAttempts := 0 } 1) ∧
    (PremonitionMatcher.getBindingThreshold wPremState 2 ≤
      PremonitionMatcher.getBindingThreshold wPremState 1) ∧
    (3/10 : ℚ) ≤ PremonitionMatcher.getBindingThreshold wPremState 2 := by
  have h := getBindingThreshold_monotone wPremState (by decide)
  exact ⟨h.1 0 2 (by decide) 1, h.2.1 1 2 (by decide), h.2.2 2⟩

/-- C9.  `bindPremonitionToFracture`: an unknown echo or stimulus id makes
the call return `false` with the engine state untouched; with both ids
known it returns `true`, stores and emits a reaction carrying a fresh id
from the uuid supply but the echo's content and emotional state, bound to
the given stimulus, and removes the echo from the pending set. -/
theorem bindPremonitionToFracture_spec (e : CollapseEngine)
    (premonitionId fractureId : String) :
    ((e.pendingPremonitions.get? premonitionId = none ∨
        e.activeFractures.get? fractureId = none) →
      CollapseEngine.bindPremonitionToFracture premonitionId fractureId e =
        (e, false)) ∧
    (∀ p : Premonition,
      e.pendingPremonitions.get? premonitionId = some p →
      (e.activeFractures.get? fractureId).isSome = true →
      (CollapseEngine.bindPremonitionToFracture premonitionId fractureId
            e).2 = true ∧
        (CollapseEngine.bindPremonitionToFracture premonitionId fractureId
              e).1.pendingPremonitions =
          e.pendingPremonitions.del premonitionId ∧
        (CollapseEngine.bindPremonitionToFracture premonitionId fractureId
              e).1.pendingFolds.get? (mkUuid e.nextUuid) =
          some
            { p.toRecursionFold with
              id := mkUuid e.nextUuid
              fractureEventId := some fractureId } ∧
        (CollapseEngine.bindPremonitionToFracture premonitionId fractureId
              e).1.events =
          e.events ++
            [.recursionFold
              { p.toRecursionFold with
                id := mkUuid e.nextUuid
                fractureEventId := some fractureId }] ∧
        (CollapseEngine.bindPremonitionToFracture premonitionId fractureId
              e).1.activeFractures = e.activeFractures) := by
  constructor
  · intro h
    unfold CollapseEngine.bindPremonitionToFracture
    rcases h with h | h
    · rw [h]
    · rw [h]
      cases e.pendingPremonitions.get? premonitionId <;> rfl
  · intro p hp hf
    rcases hof : e.activeFractures.get? fractureId with _ | f
    · rw [hof] at hf
      simp at hf
    · unfold CollapseEngine.bindPremonitionToFracture
      rw [hp, hof]
      refine ⟨rfl, rfl, ?_, rfl, rfl⟩
      exact JsMap.get?_set_self _ _ _

/-- Witness for C9 on `wEngine`: binding echo `p` to fracture `f1`
succeeds with the stated effects, and binding an unknown echo id fails
without touching the state. -/
theorem bindPremonitionToFracture_spec_witness :
    (CollapseEngine.bindPremonitionToFracture "p" "f1" wEngine).2 = true ∧
    (CollapseEngine.bindPremonitionToFracture "nope" "f1" wEngine =
      (wEngine, false)) := by
  have h := bindPremonitionToFracture_spec wEngine "p" "f1"
  have h2 := bindPremonitionToFracture_spec wEngine "nope" "f1"
  refine ⟨(h.2 wPremState.premonition rfl rfl).1, ?_⟩
  exact h2.1 (Or.inl rfl)

/-- Witness for C10, mirroring `forkCharacter`'s pair of anchor links:
after the `emotional` 0.8 edge and then the `divergence` 0.5 edge between
the same two nodes, both are listed among all edges but `getEdgesBetween`
returns only the divergence edge. -/
theorem edgesBetween_sees_last_insertion_witness :
    wEdgeEmotional ∈
      (((MemoryGraphStore.addEdge wEdgeDivergence
          (MemoryGraphStore.addEdge wEdgeEmotional wStore).1).1).getAllEdges) ∧
    wEdgeDivergence ∈
      (((MemoryGraphStore.addEdge wEdgeDivergence
          (MemoryGraphStore.addEdge wEdgeEmotional wStore).1).1).getAllEdges) ∧
    ((MemoryGraphStore.addEdge wEdgeDivergence
        (MemoryGraphStore.addEdge wEdgeEmotional wStore).1).1).getEdgesBetween
        "a" "b" = [wEdgeDivergence] := by
  have h :=
    edgesBetween_sees_last_insertion wStore wEdgeEmotional wEdgeDivergence
      rfl rfl (by decide) (by decide) (by decide)
  simpa [wEdgeEmotional, wEdgeDivergence] using h

end McTavish
